import Mathlib

/-!
# Position/offset index and session controller of `DecompilerWidget`

A shallow embedding of `src/widgets/DecompilerWidget.cpp`.

* `size_t` and `ut64` values are natural numbers; the comparisons of the source
  are the only operations performed on them, so no wrap-around occurs.  The
  range of a field is stated as a hypothesis where a proof needs it.
* `r_vector_foreach` over `code->annotations` is a left fold over a list.
-/

namespace DecompilerWidget

/-! ## Constants -/

/-- Largest value of the C type `size_t` (64-bit target). -/
def SIZE_MAX : Nat := 0xFFFFFFFFFFFFFFFF

/-- Largest value of the type `ut64`. -/
def UT64_MAX : Nat := 0xFFFFFFFFFFFFFFFF

/-- Modelled from the spec: the header defining `RVA_MAX` is not part of the
sources; an `RVA` is a `ut64` and `RVA_MAX` is its largest value. -/
def RVA_MAX : Nat := UT64_MAX

/-- Modelled from the spec: the header defining `RVA_INVALID` is not part of the
sources; it is the invalid-address sentinel, the largest `RVA`. -/
def RVA_INVALID : Nat := RVA_MAX

/-- Largest value of the C type `int` (32 bits). -/
def INT_MAX : Nat := 0x7FFFFFFF

/-- The conversion of a `size_t` to the `int` parameter of `QTextCursor::setPosition`: the
value is reduced modulo `2 ^ 32` and read as a signed 32-bit number. -/
def narrowToInt (n : Nat) : Int :=
  if n % 0x100000000 ≤ INT_MAX then ((n % 0x100000000 : Nat) : Int)
  else ((n % 0x100000000 : Nat) : Int) - 0x100000000

/-! ## Annotated code -/

/-- Modelled from the spec: the kinds of annotation (`RCodeAnnotationType`, declared
in a header outside the sources).  The source names `R_CODE_ANNOTATION_TYPE_OFFSET`
and `R_CODE_ANNOTATION_TYPE_SYNTAX_HIGHLIGHT`; every other kind is `other`. -/
inductive RCodeAnnotationType where
  | offset
  | syntaxHighlight
  | other
  deriving DecidableEq, Repr

/-- One `RCodeAnnotation`: the fields the widget reads.  `end_` is the field `end`,
`offset` is `offset.offset`. -/
structure RCodeAnnotation where
  start : Nat
  end_ : Nat
  type : RCodeAnnotationType
  offset : Nat
  deriving DecidableEq, Repr

/-- The `RAnnotatedCode` document: text and annotations in vector order. -/
structure RAnnotatedCode where
  code : String
  annotations : List RCodeAnnotation
  deriving DecidableEq, Repr

/-! ## `offsetForPosition` -/

/-- One iteration of the loop of `offsetForPosition`; the state is
`(closestPos, closestOffset)`. -/
def offsetForPositionStep (pos : Nat) (st : Nat × Nat) (ann : RCodeAnnotation) : Nat × Nat :=
  if ann.type ≠ RCodeAnnotationType.offset ∨ ann.start > pos ∨ ann.end_ ≤ pos then st
  else if st.1 ≠ SIZE_MAX ∧ st.1 ≥ ann.start then st
  else (ann.start, ann.offset)

/-- The function `DecompilerWidget::offsetForPosition`; `firstOffsetInLine` is the value of
`mCtxMenu->getFirstOffsetInLine()`. -/
def offsetForPosition (annotations : List RCodeAnnotation) (firstOffsetInLine pos : Nat) : Nat :=
  (annotations.foldl (offsetForPositionStep pos) (SIZE_MAX, firstOffsetInLine)).2

/-- An `OffsetRange` annotation containing `pos`: `start ≤ pos < end`. -/
def Contains (pos : Nat) (a : RCodeAnnotation) : Prop :=
  a.type = RCodeAnnotationType.offset ∧ a.start ≤ pos ∧ pos < a.end_

instance (pos : Nat) (a : RCodeAnnotation) : Decidable (Contains pos a) :=
  inferInstanceAs (Decidable (_ ∧ _ ∧ _))

/-- Reference definition of `offsetForPosition` in the words of the specification: among
the `OffsetRange` annotations containing `pos`, the one with the largest `start`
(`List.argmax` keeps the first of several maxima); the fallback when there is none. -/
def offsetForPositionSpec (annotations : List RCodeAnnotation) (fallback pos : Nat) : Nat :=
  match (annotations.filter (fun a => Contains pos a)).argmax (fun a => a.start) with
  | none => fallback
  | some a => a.offset

/-! ## `positionForOffset` -/

/-- One iteration of the loop of `positionForOffset`; the state is
`(closestPos, closestOffset)`. -/
def positionForOffsetStep (offset : Nat) (st : Nat × Nat) (ann : RCodeAnnotation) : Nat × Nat :=
  if ann.type ≠ RCodeAnnotationType.offset ∨ ann.offset > offset then st
  else if st.2 ≠ UT64_MAX ∧ st.2 ≥ ann.offset then st
  else (ann.start, ann.offset)

/-- The function `DecompilerWidget::positionForOffset`. -/
def positionForOffset (annotations : List RCodeAnnotation) (offset : Nat) : Nat :=
  (annotations.foldl (positionForOffsetStep offset) (SIZE_MAX, UT64_MAX)).1

/-- An `OffsetRange` annotation whose address is at most `addr`. -/
def AtOrBelow (addr : Nat) (a : RCodeAnnotation) : Prop :=
  a.type = RCodeAnnotationType.offset ∧ a.offset ≤ addr

instance (addr : Nat) (a : RCodeAnnotation) : Decidable (AtOrBelow addr a) :=
  inferInstanceAs (Decidable (_ ∧ _))

/-- The two annotations of the scenario of the specification. -/
def scenario : List RCodeAnnotation :=
  [⟨0, 10, RCodeAnnotationType.offset, 0x100⟩, ⟨5, 20, RCodeAnnotationType.offset, 0x200⟩]

/-- Two `OffsetRange` annotations that start at the same position. -/
def sharedStart : List RCodeAnnotation :=
  [⟨0, 10, RCodeAnnotationType.offset, 0x200⟩, ⟨0, 5, RCodeAnnotationType.offset, 0x100⟩]

/-- An `OffsetRange` annotation at the address `UT64_MAX`, followed by one at `0x100`. -/
def sentinelAddress : List RCodeAnnotation :=
  [⟨0, 10, RCodeAnnotationType.offset, UT64_MAX⟩, ⟨20, 30, RCodeAnnotationType.offset, 0x100⟩]

/-- The loop state and the running `argmax` of the reference definition agree. -/
def OffsetRel (f : Nat) (st : Nat × Nat) (o : Option RCodeAnnotation) : Prop :=
  (o = none ∧ st = (SIZE_MAX, f)) ∨
    (∃ a, o = some a ∧ st = (a.start, a.offset) ∧ a.start ≠ SIZE_MAX)

/-- The property claimed of `positionForOffset`: when some `OffsetRange` annotation has an
address at most `addr`, the result is the start of one whose address is the largest of
those. -/
def ClosestFromBelow (annotations : List RCodeAnnotation) (addr : Nat) : Prop :=
  (∃ a ∈ annotations, AtOrBelow addr a) →
    ∃ a ∈ annotations, AtOrBelow addr a ∧
      (∀ b ∈ annotations, AtOrBelow addr b → b.offset ≤ a.offset) ∧
      positionForOffset annotations addr = a.start

instance (annotations : List RCodeAnnotation) (addr : Nat) :
    Decidable (ClosestFromBelow annotations addr) :=
  inferInstanceAs (Decidable (_ → _))

/-! ## `gatherBreakpointInfo` -/

/-- The test of `gatherBreakpointInfo` on one `OffsetRange` annotation: its start lies in
`[startPos, endPos)` or its end lies strictly between `startPos` and `endPos`. -/
def CountedInLine (startPos endPos : Nat) (a : RCodeAnnotation) : Prop :=
  a.type = RCodeAnnotationType.offset ∧
    ((startPos ≤ a.start ∧ a.start < endPos) ∨ (startPos < a.end_ ∧ a.end_ < endPos))

instance (startPos endPos : Nat) (a : RCodeAnnotation) :
    Decidable (CountedInLine startPos endPos a) :=
  inferInstanceAs (Decidable (_ ∧ _))

/-- An `OffsetRange` annotation that intersects the range `[startPos, endPos)`. -/
def Intersects (startPos endPos : Nat) (a : RCodeAnnotation) : Prop :=
  a.type = RCodeAnnotationType.offset ∧ a.start < endPos ∧ startPos < a.end_

instance (startPos endPos : Nat) (a : RCodeAnnotation) :
    Decidable (Intersects startPos endPos a) :=
  inferInstanceAs (Decidable (_ ∧ _ ∧ _))

/-- One iteration of the first loop of `gatherBreakpointInfo`; the state is `firstOffset`. -/
def firstOffsetStep (startPos endPos : Nat) (firstOffset : Nat) (ann : RCodeAnnotation) : Nat :=
  if ann.type ≠ RCodeAnnotationType.offset then firstOffset
  else if (startPos ≤ ann.start ∧ ann.start < endPos)
      ∨ (startPos < ann.end_ ∧ ann.end_ < endPos) then
    (if ann.offset < firstOffset then ann.offset else firstOffset)
  else firstOffset

/-- The function `DecompilerWidget::gatherBreakpointInfo`.  `code` is the member the
nested `positionForOffset` reads, `functionBreakpoints` the answer of
`Core()->getBreakpointsInFunction(decompiledFunctionAddr)`.  The result is the pair of
values handed to `setFirstOffsetInLine` and `setAvailableBreakpoints`. -/
def gatherBreakpointInfo (code : RAnnotatedCode) (functionBreakpoints : List Nat)
    (codeDecompiled : RAnnotatedCode) (startPos endPos : Nat) : Nat × List Nat :=
  let firstOffset := codeDecompiled.annotations.foldl (firstOffsetStep startPos endPos) RVA_MAX
  let offsetList := functionBreakpoints.filter (fun bpOffset =>
    decide (startPos ≤ positionForOffset code.annotations bpOffset
      ∧ positionForOffset code.annotations bpOffset ≤ endPos))
  (firstOffset, offsetList.mergeSort (fun a b => decide (a ≤ b)))

/-- Reference value of the first offset in a line in the words of the specification: the
minimum address among the `OffsetRange` annotations that intersect the range, `RVA_MAX`
when there is none. -/
def firstOffsetInLineSpec (annotations : List RCodeAnnotation) (startPos endPos : Nat) : Nat :=
  ((annotations.filter (fun a => Intersects startPos endPos a)).map
    (fun a => a.offset)).foldr min RVA_MAX

/-! ## Session controller -/

/-- A decompiler backend as the widget observes it through `isRunning()` and
`isCancelable()`. -/
structure Decompiler where
  isRunning : Bool
  isCancelable : Bool
  deriving DecidableEq, Repr

/-- The answers of the collaborators while one handler runs.  `runsInBackground` is what
`isRunning()` answers after `decompileAt` was called on an idle backend;
`ensureCursorVisible pos view` is the scroll position the text edit has after its cursor
was given the position `pos` while scrolled to `view`. -/
structure Env where
  attemptRefresh : Bool
  currentDecompiler : Option Decompiler
  runsInBackground : Bool
  getOffset : Nat
  getFunctionStart : Nat → Nat
  getProgramCounterValue : Nat
  getBreakpointsInFunction : Nat → List Nat
  ensureCursorVisible : Int → Int × Int → Int × Int

/-- An entry of `ui->textEdit->extraSelections()`, by the helper that made it and the
`int` position of the cursor it was made for. -/
inductive ExtraSelection where
  | currentLine (pos : Int)
  | sameWords (pos : Int)
  | programCounter (pos : Int)
  deriving DecidableEq, Repr

/-- The state of the widget: its members, the part of `ui` the handlers touch and the
values they store in `mCtxMenu`.  `textCursor` is the `int` position last given to the text
cursor, `breakpointBlocks` the `int` positions of the cursors whose block got the breakpoint
background. -/
structure State where
  decompilerWasBusy : Bool
  scrollerHorizontal : Int
  scrollerVertical : Int
  previousFunctionAddr : Nat
  decompiledFunctionAddr : Nat
  autoRefreshEnabled : Bool
  decompilerSelectionEnabled : Bool
  code : RAnnotatedCode
  plainText : String
  textCursor : Int
  extraSelections : List ExtraSelection
  breakpointBlocks : List Int
  horizontalSliderPosition : Int
  verticalSliderPosition : Int
  progressLabelVisible : Bool
  decompilerComboBoxEnabled : Bool
  decompilerComboBoxIndex : Int
  refreshButtonEnabled : Bool
  refreshButtonText : String
  ctxDecompiledFunctionAddress : Nat
  ctxOffset : Nat
  ctxAnnotationHere : Option RCodeAnnotation
  deriving DecidableEq, Repr

/-- The calls a handler makes that the claims count: entries into `doRefresh`, calls of
`decompileAt` on the backend (with what `isRunning()` answered when the call was made) and
writes to a scroll bar (`vertical = false` for the horizontal one). -/
inductive Call where
  | doRefresh (addr : Nat)
  | decompileAt (addr : Nat) (backendWasRunning : Bool)
  | setSliderPosition (vertical : Bool) (value : Int)
  deriving DecidableEq, Repr

/-- The function `DecompilerWidget::updateRefreshButton`; `dec` is the answer of
`getCurrentDecompiler()`. -/
def updateRefreshButton (dec : Option Decompiler) (w : State) : State :=
  { w with
    refreshButtonEnabled :=
      !w.autoRefreshEnabled && (match dec with | some d => !d.isRunning | none => false)
    refreshButtonText :=
      if (match dec with | some d => d.isRunning && d.isCancelable | none => false) = true then
        "Cancel"
      else
        "Refresh" }

/-- The function `DecompilerWidget::setAutoRefresh`. -/
def setAutoRefresh (env : Env) (enabled : Bool) (w : State) : State :=
  updateRefreshButton env.currentDecompiler { w with autoRefreshEnabled := enabled }

/-- The call `ui->textEdit->setPlainText(text)`: the document is replaced, so the block
formats of the old one are gone, the cursor is at its start and the view is scrolled to its
top left. -/
def setPlainText (text : String) (w : State) : State :=
  { w with plainText := text, textCursor := 0, breakpointBlocks := [],
           horizontalSliderPosition := 0, verticalSliderPosition := 0 }

/-- The function `DecompilerWidget::getCursorForAddress`: `none` is the null cursor,
`some n` the text cursor after `cursor.setPosition(pos)`, where `n` is the `int` that the
`size_t pos` becomes when it is passed to `QTextCursor::setPosition(int)`. -/
def getCursorForAddress (annotations : List RCodeAnnotation) (addr : Nat) : Option Int :=
  if positionForOffset annotations addr = SIZE_MAX ∨ positionForOffset annotations addr = 0 then
    none
  else
    some (narrowToInt (positionForOffset annotations addr))

/-- The function `DecompilerWidget::colorLine`. -/
def colorLine (extraSelection : ExtraSelection) (w : State) : State :=
  { w with extraSelections := w.extraSelections ++ [extraSelection] }

/-- The function `DecompilerWidget::highlightPC`. -/
def highlightPC (env : Env) (w : State) : State :=
  if env.getProgramCounterValue = RVA_INVALID
      ∨ env.getFunctionStart env.getProgramCounterValue ≠ w.decompiledFunctionAddr then w
  else
    match getCursorForAddress w.code.annotations env.getProgramCounterValue with
    | none => w
    | some pos => colorLine (ExtraSelection.programCounter pos) w

/-- One iteration of the loop of `highlightBreakpoints`. -/
def highlightBreakpointsStep (w : State) (bp : Nat) : State :=
  if bp = RVA_INVALID then w
  else
    match getCursorForAddress w.code.annotations bp with
    | none => w
    | some pos => { w with breakpointBlocks := w.breakpointBlocks ++ [pos] }

/-- The function `DecompilerWidget::highlightBreakpoints`. -/
def highlightBreakpoints (env : Env) (w : State) : State :=
  (env.getBreakpointsInFunction w.decompiledFunctionAddr).foldl highlightBreakpointsStep w

/-- The function `DecompilerWidget::updateSelection`.  The word under the cursor, which
needs the layout of the text, is not part of the state; the selections for it are one
entry. -/
def updateSelection (env : Env) (w : State) : State :=
  highlightPC env { w with extraSelections :=
    [ExtraSelection.currentLine w.textCursor, ExtraSelection.sameWords w.textCursor] }

/-- The function `DecompilerWidget::updateCursorPosition`; the `size_t pos` becomes an `int`
when it is passed to `cursor.setPosition(pos)`. -/
def updateCursorPosition (env : Env) (w : State) : State :=
  if positionForOffset w.code.annotations env.getOffset = SIZE_MAX then w
  else
    let w1 := { w with ctxOffset := env.getOffset }
    let view := env.ensureCursorVisible
      (narrowToInt (positionForOffset w.code.annotations env.getOffset))
      (w1.horizontalSliderPosition, w1.verticalSliderPosition)
    let w2 := { w1 with
      textCursor := narrowToInt (positionForOffset w.code.annotations env.getOffset),
      horizontalSliderPosition := view.1, verticalSliderPosition := view.2 }
    updateSelection env w2

/-- The body of `DecompilerWidget::doRefresh`, with the calls it makes.  The run a
backend starts is delivered later, as a `decompilationFinished` event. -/
def doRefreshBody (env : Env) (addr : Nat) (w : State) : State × List Call :=
  if env.attemptRefresh = false then (w, [])
  else if w.decompilerComboBoxIndex < 0 then (w, [])
  else
    match env.currentDecompiler with
    | none => (w, [])
    | some dec =>
      if dec.isRunning = true then ({ w with decompilerWasBusy := true }, [])
      else if addr = RVA_INVALID then
        (setPlainText "Click Refresh to generate Decompiler from current offset." w, [])
      else
        let w1 := { w with extraSelections := [] }
        let w2 := { w1 with previousFunctionAddr := w1.decompiledFunctionAddr }
        let w3 := { w2 with decompiledFunctionAddr := env.getFunctionStart addr }
        let w4 := { w3 with ctxDecompiledFunctionAddress := w3.decompiledFunctionAddr }
        let dec1 : Decompiler := { dec with isRunning := env.runsInBackground }
        if dec1.isRunning = true then
          (updateRefreshButton (some dec1)
              { w4 with progressLabelVisible := true, decompilerComboBoxEnabled := false },
            [Call.decompileAt addr dec.isRunning])
        else (w4, [Call.decompileAt addr dec.isRunning])

/-- The function `DecompilerWidget::doRefresh`; the entry into it is recorded. -/
def doRefresh (env : Env) (addr : Nat) (w : State) : State × List Call :=
  ((doRefreshBody env addr w).1, Call.doRefresh addr :: (doRefreshBody env addr w).2)

/-- Modelled from the spec: the default argument of `doRefresh`, declared in the header
outside the sources; a refresh with no explicit address is resolved from the current
external navigation offset. -/
def doRefreshDefault (env : Env) (w : State) : State × List Call :=
  doRefresh env env.getOffset w

/-- The function `DecompilerWidget::doAutoRefresh`. -/
def doAutoRefresh (env : Env) (w : State) : State × List Call :=
  if w.autoRefreshEnabled = false then (w, [])
  else doRefreshDefault env w

/-- The function `DecompilerWidget::decompilationFinished`. -/
def decompilationFinished (env : Env) (codeDecompiled : RAnnotatedCode) (w : State) :
    State × List Call :=
  let isDisplayReset : Bool := decide (w.previousFunctionAddr = w.decompiledFunctionAddr)
  let w1 := if isDisplayReset = true then
      { w with scrollerHorizontal := w.horizontalSliderPosition,
               scrollerVertical := w.verticalSliderPosition }
    else w
  let w2 := { w1 with progressLabelVisible := false,
                      decompilerComboBoxEnabled := w1.decompilerSelectionEnabled }
  let w3 := updateRefreshButton env.currentDecompiler w2
  let w4 := { w3 with ctxAnnotationHere := none, code := codeDecompiled }
  if codeDecompiled.code.isEmpty = true then
    (setPlainText "Cannot decompile at this address (Not a function?)" w4, [])
  else
    let w5 := setPlainText codeDecompiled.code w4
    let w6 := updateCursorPosition env w5
    let w7 := highlightPC env w6
    let w8 := highlightBreakpoints env w7
    let r := if w8.decompilerWasBusy = true then
        doAutoRefresh env { w8 with decompilerWasBusy := false }
      else (w8, [])
    if isDisplayReset = true then
      ({ r.1 with horizontalSliderPosition := r.1.scrollerHorizontal,
                  verticalSliderPosition := r.1.scrollerVertical },
        r.2 ++ [Call.setSliderPosition false r.1.scrollerHorizontal,
                Call.setSliderPosition true r.1.scrollerVertical])
    else r

/-- The events of the controller: a refresh request for an address and the completion of a
run with its document. -/
inductive Event where
  | doRefresh (addr : Nat)
  | decompilationFinished (codeDecompiled : RAnnotatedCode)

/-- One event handled in the environment it meets. -/
def step (env : Env) (ev : Event) (w : State) : State × List Call :=
  match ev with
  | Event.doRefresh addr => doRefresh env addr w
  | Event.decompilationFinished codeDecompiled => decompilationFinished env codeDecompiled w

/-- A sequence of events, each with its environment, handled in order; the calls made are
collected in order. -/
def run : List (Env × Event) → State → State × List Call
  | [], w => (w, [])
  | (env, ev) :: rest, w =>
    ((run rest (step env ev w).1).1, (step env ev w).2 ++ (run rest (step env ev w).1).2)

/-- The addresses of the entries into `doRefresh` among the calls. -/
def refreshRequests : List Call → List Nat
  | [] => []
  | Call.doRefresh addr :: rest => addr :: refreshRequests rest
  | _ :: rest => refreshRequests rest

/-- The `decompileAt` calls among the calls, as pairs of the address and of what
`isRunning()` answered when the call was made. -/
def decompileAtCalls : List Call → List (Nat × Bool)
  | [] => []
  | Call.decompileAt addr r :: rest => (addr, r) :: decompileAtCalls rest
  | _ :: rest => decompileAtCalls rest

/-- The scroll bar writes among the calls. -/
def sliderWrites : List Call → List (Bool × Int)
  | [] => []
  | Call.setSliderPosition v x :: rest => (v, x) :: sliderWrites rest
  | _ :: rest => sliderWrites rest

/-- The state of `decompilationFinished` after `this->code.reset(codeDecompiled)`. -/
def decompilationFinishedReset (env : Env) (codeDecompiled : RAnnotatedCode) (w : State) :
    State :=
  let isDisplayReset : Bool := decide (w.previousFunctionAddr = w.decompiledFunctionAddr)
  let w1 := if isDisplayReset = true then
      { w with scrollerHorizontal := w.horizontalSliderPosition,
               scrollerVertical := w.verticalSliderPosition }
    else w
  let w2 := { w1 with progressLabelVisible := false,
                      decompilerComboBoxEnabled := w1.decompilerSelectionEnabled }
  let w3 := updateRefreshButton env.currentDecompiler w2
  { w3 with ctxAnnotationHere := none, code := codeDecompiled }

/-- The state of `decompilationFinished` after `highlightBreakpoints`, reached when the
text of the document is not empty. -/
def decompilationFinishedShown (env : Env) (codeDecompiled : RAnnotatedCode) (w : State) :
    State :=
  highlightBreakpoints env (highlightPC env (updateCursorPosition env
    (setPlainText codeDecompiled.code (decompilationFinishedReset env codeDecompiled w))))

/-- The state and the calls of `decompilationFinished` after the test of the pending flag,
reached when the text of the document is not empty. -/
def decompilationFinishedDrained (env : Env) (codeDecompiled : RAnnotatedCode) (w : State) :
    State × List Call :=
  if (decompilationFinishedShown env codeDecompiled w).decompilerWasBusy = true then
    doAutoRefresh env
      { decompilationFinishedShown env codeDecompiled w with decompilerWasBusy := false }
  else (decompilationFinishedShown env codeDecompiled w, [])

/-- The members and the selection of the combo box, which the helpers that redraw the
text never change. -/
def SameMembers (a b : State) : Prop :=
  b.decompilerWasBusy = a.decompilerWasBusy ∧
  b.scrollerHorizontal = a.scrollerHorizontal ∧
  b.scrollerVertical = a.scrollerVertical ∧
  b.previousFunctionAddr = a.previousFunctionAddr ∧
  b.decompiledFunctionAddr = a.decompiledFunctionAddr ∧
  b.autoRefreshEnabled = a.autoRefreshEnabled ∧
  b.decompilerComboBoxIndex = a.decompilerComboBoxIndex ∧
  b.code = a.code

/-- A widget showing the function at `0x1000`, scrolled to `(5, 7)`, with a backend
selected and the pending flag set; `auto` is the auto-refresh setting. -/
def shownState (auto : Bool) : State :=
  { decompilerWasBusy := true
    scrollerHorizontal := 0
    scrollerVertical := 0
    previousFunctionAddr := 0x1000
    decompiledFunctionAddr := 0x1000
    autoRefreshEnabled := auto
    decompilerSelectionEnabled := true
    code := ⟨"int main () {}", scenario⟩
    plainText := "int main () {}"
    textCursor := 3
    extraSelections := []
    breakpointBlocks := []
    horizontalSliderPosition := 5
    verticalSliderPosition := 7
    progressLabelVisible := true
    decompilerComboBoxEnabled := false
    decompilerComboBoxIndex := 0
    refreshButtonEnabled := false
    refreshButtonText := "Refresh"
    ctxDecompiledFunctionAddress := 0x1000
    ctxOffset := 0x1000
    ctxAnnotationHere := none }

/-- Collaborators of an example session: the refresh gate permits, a backend that is not
cancelable is selected and reports `running`, the navigation offset and the program counter
are `0x1000`, every address lies in the function at `0x1000`, which has one breakpoint, at
`0x1000`, and moving the cursor does not scroll. -/
def sessionEnv (running : Bool) : Env :=
  { attemptRefresh := true
    currentDecompiler := some ⟨running, false⟩
    runsInBackground := true
    getOffset := 0x1000
    getFunctionStart := fun _ => 0x1000
    getProgramCounterValue := 0x1000
    getBreakpointsInFunction := fun _ => [0x1000]
    ensureCursorVisible := fun _ view => view }

/-- A document whose only `OffsetRange` annotation starts at text position 0 and carries
the address `0x1000`. -/
def firstLineCode : RAnnotatedCode :=
  ⟨"int main () {}", [⟨0, 14, RCodeAnnotationType.offset, 0x1000⟩]⟩

/-- The widget of `shownState` showing `firstLineCode`. -/
def firstLineState : State :=
  { shownState true with code := firstLineCode }

/-- One `OffsetRange` annotation at address `0x1000` whose start, `2 ^ 32 + 5`, does not fit
in an `int`. -/
def farStart : List RCodeAnnotation :=
  [⟨0x100000005, 0x10000000A, RCodeAnnotationType.offset, 0x1000⟩]

/-- One `OffsetRange` annotation at address `0x1000` whose start is `2 ^ 32`. -/
def wrappedStart : List RCodeAnnotation :=
  [⟨0x100000000, 0x10000000A, RCodeAnnotationType.offset, 0x1000⟩]

/-! ## Lemmas on `offsetForPosition` -/

theorem contains_start_ne (pos : Nat) (a : RCodeAnnotation) (hc : Contains pos a)
    (he : a.end_ ≤ SIZE_MAX) : a.start ≠ SIZE_MAX := by
  obtain ⟨_, h1, h2⟩ := hc
  omega

/-- Loop invariant of `offsetForPosition` after a prefix `l` of the annotations. -/
theorem offsetForPosition_fold (f pos : Nat) (l : List RCodeAnnotation)
    (hwf : ∀ a ∈ l, a.end_ ≤ SIZE_MAX) :
    ((∀ a ∈ l, ¬ Contains pos a) ∧
        l.foldl (offsetForPositionStep pos) (SIZE_MAX, f) = (SIZE_MAX, f)) ∨
    (∃ l1 a l2, l = l1 ++ a :: l2 ∧ Contains pos a ∧
        (∀ b ∈ l1, Contains pos b → b.start < a.start) ∧
        (∀ b ∈ l2, Contains pos b → b.start ≤ a.start) ∧
        l.foldl (offsetForPositionStep pos) (SIZE_MAX, f) = (a.start, a.offset)) := by
  induction l using List.reverseRecOn with
  | nil => left; simp
  | append_singleton l x ih =>
    have hwf1 : ∀ a ∈ l, a.end_ ≤ SIZE_MAX := fun a ha => hwf a (by simp [ha])
    have hx : x.end_ ≤ SIZE_MAX := hwf x (by simp)
    rw [List.foldl_append, List.foldl_cons, List.foldl_nil]
    by_cases hc : Contains pos x
    · have hcond : ¬ (x.type ≠ RCodeAnnotationType.offset ∨ x.start > pos ∨ x.end_ ≤ pos) := by
        obtain ⟨h0, h1, h2⟩ := hc
        simp only [h0, ne_eq, not_true_eq_false, false_or]
        omega
      rcases ih hwf1 with ⟨hnone, hst⟩ | ⟨l1, a, l2, hl, hca, hb1, hb2, hst⟩
      · right
        refine ⟨l, x, [], by simp, hc, fun b hb hcb => absurd hcb (hnone b hb), by simp, ?_⟩
        rw [hst]
        simp [offsetForPositionStep, hcond]
      · have hane : a.start ≠ SIZE_MAX := contains_start_ne pos a hca (hwf1 a (by simp [hl]))
        rw [hst]
        by_cases hge : a.start ≥ x.start
        · right
          refine ⟨l1, a, l2 ++ [x], by simp [hl], hca, hb1, ?_, ?_⟩
          · intro b hb hcb
            rcases List.mem_append.1 hb with hb | hb
            · exact hb2 b hb hcb
            · simp at hb; subst hb; exact hge
          · simp [offsetForPositionStep, hcond, hane, hge]
        · right
          refine ⟨l, x, [], by simp, hc, ?_, by simp, ?_⟩
          · intro b hb hcb
            rw [hl] at hb
            simp only [List.mem_append, List.mem_cons] at hb
            rcases hb with hb | hb | hb
            · have := hb1 b hb hcb; omega
            · subst hb; omega
            · have := hb2 b hb hcb; omega
          · simp [offsetForPositionStep, hcond, hge]
    · have hcond : x.type ≠ RCodeAnnotationType.offset ∨ x.start > pos ∨ x.end_ ≤ pos := by
        unfold Contains at hc
        by_contra hcon
        push_neg at hcon
        exact hc ⟨hcon.1, hcon.2.1, hcon.2.2⟩
      have hstep : ∀ st, offsetForPositionStep pos st x = st := by
        intro st; simp only [offsetForPositionStep, if_pos hcond]
      rw [hstep]
      rcases ih hwf1 with ⟨hnone, hst⟩ | ⟨l1, a, l2, hl, hca, hb1, hb2, hst⟩
      · left
        refine ⟨?_, hst⟩
        intro b hb
        rcases List.mem_append.1 hb with hb | hb
        · exact hnone b hb
        · simp at hb; subst hb; exact hc
      · right
        refine ⟨l1, a, l2 ++ [x], by simp [hl], hca, hb1, ?_, hst⟩
        intro b hb hcb
        rcases List.mem_append.1 hb with hb | hb
        · exact hb2 b hb hcb
        · simp at hb; subst hb; exact absurd hcb hc

theorem offsetForPosition_sim (f pos : Nat) (l : List RCodeAnnotation) :
    ∀ (st : Nat × Nat) (o : Option RCodeAnnotation), (∀ a ∈ l, a.end_ ≤ SIZE_MAX) →
      OffsetRel f st o →
      OffsetRel f (l.foldl (offsetForPositionStep pos) st)
        ((l.filter (fun a => Contains pos a)).foldl
          (List.argAux (fun b c : RCodeAnnotation => c.start < b.start)) o) := by
  induction l with
  | nil => intro st o _ h; simpa using h
  | cons x l ih =>
    intro st o hwf h
    have hwf1 : ∀ a ∈ l, a.end_ ≤ SIZE_MAX := fun a ha => hwf a (by simp [ha])
    have hx : x.end_ ≤ SIZE_MAX := hwf x (by simp)
    rw [List.foldl_cons]
    by_cases hc : Contains pos x
    · have hcond : ¬ (x.type ≠ RCodeAnnotationType.offset ∨ x.start > pos ∨ x.end_ ≤ pos) := by
        obtain ⟨h0, h1, h2⟩ := hc
        simp only [h0, ne_eq, not_true_eq_false, false_or]
        omega
      have hxne : x.start ≠ SIZE_MAX := contains_start_ne pos x hc hx
      rw [List.filter_cons_of_pos (by simpa using hc), List.foldl_cons]
      apply ih _ _ hwf1
      rcases h with ⟨ho, hst⟩ | ⟨a, ho, hst, hane⟩
      · right
        refine ⟨x, ?_, ?_, hxne⟩
        · simp [ho, List.argAux]
        · simp [hst, offsetForPositionStep, hcond]
      · by_cases hge : a.start ≥ x.start
        · right
          refine ⟨a, ?_, ?_, hane⟩
          · have : ¬ a.start < x.start := by omega
            simp [ho, List.argAux, this]
          · simp [hst, offsetForPositionStep, hcond, hane, hge]
        · right
          refine ⟨x, ?_, ?_, hxne⟩
          · have : a.start < x.start := by omega
            simp [ho, List.argAux, this]
          · simp [hst, offsetForPositionStep, hcond, hge]
    · have hcond : x.type ≠ RCodeAnnotationType.offset ∨ x.start > pos ∨ x.end_ ≤ pos := by
        unfold Contains at hc
        by_contra hcon
        push_neg at hcon
        exact hc ⟨hcon.1, hcon.2.1, hcon.2.2⟩
      have hstep : offsetForPositionStep pos st x = st := by
        simp only [offsetForPositionStep, if_pos hcond]
      rw [hstep, List.filter_cons_of_neg (by simpa using hc)]
      exact ih _ _ hwf1 h

theorem offsetForPosition_eq_spec (annotations : List RCodeAnnotation) (f pos : Nat)
    (hwf : ∀ a ∈ annotations, a.end_ ≤ SIZE_MAX) :
    offsetForPosition annotations f pos = offsetForPositionSpec annotations f pos := by
  have h := offsetForPosition_sim f pos annotations (SIZE_MAX, f) none hwf (Or.inl ⟨rfl, rfl⟩)
  unfold offsetForPosition offsetForPositionSpec List.argmax
  rcases h with ⟨ho, hst⟩ | ⟨a, ho, hst, _⟩
  · rw [hst, ho]
  · rw [hst, ho]

/-- When some annotation contains `pos` the fallback is never returned. -/
theorem offsetForPosition_fallback_irrelevant (annotations : List RCodeAnnotation)
    (f g pos : Nat) (hwf : ∀ a ∈ annotations, a.end_ ≤ SIZE_MAX)
    (hex : ∃ a ∈ annotations, Contains pos a) :
    offsetForPosition annotations f pos = offsetForPosition annotations g pos := by
  rw [offsetForPosition_eq_spec annotations f pos hwf,
    offsetForPosition_eq_spec annotations g pos hwf]
  unfold offsetForPositionSpec
  cases hm : (annotations.filter (fun a => Contains pos a)).argmax (fun a => a.start) with
  | none =>
    exfalso
    rw [List.argmax_eq_none] at hm
    obtain ⟨a, ha, hc⟩ := hex
    have : a ∈ annotations.filter (fun a => Contains pos a) := by
      simp [List.mem_filter, ha, hc]
    rw [hm] at this
    simp at this
  | some a => rfl

/-- Annotations of another kind leave the loop state of `offsetForPosition` alone. -/
theorem offsetForPosition_fold_filter (pos : Nat) (l : List RCodeAnnotation) :
    ∀ st : Nat × Nat,
      (l.filter (fun a => a.type = RCodeAnnotationType.offset)).foldl
          (offsetForPositionStep pos) st
        = l.foldl (offsetForPositionStep pos) st := by
  induction l with
  | nil => intro st; rfl
  | cons x l ih =>
    intro st
    by_cases hx : x.type = RCodeAnnotationType.offset
    · rw [List.filter_cons_of_pos (by simpa using hx), List.foldl_cons, List.foldl_cons, ih]
    · rw [List.filter_cons_of_neg (by simpa using hx), List.foldl_cons, ih]
      have : offsetForPositionStep pos st x = st := by
        simp [offsetForPositionStep, hx]
      rw [this]

/-! ## Theorems on `offsetForPosition` -/

/-- C1: for annotations whose `end` is a `size_t`, `offsetForPosition` equals its reference
definition: when some `OffsetRange` annotation contains `pos` it returns the address of the
containing one with the largest `start`, the first in list order among equals (so the address
of the only one when there is exactly one); when none contains `pos` it returns the fallback;
annotations of other kinds never influence the result; and on the scenario of the
specification position 7 maps to `0x200`. -/
theorem offsetForPosition_refines (annotations : List RCodeAnnotation) (f pos : Nat)
    (hwf : ∀ a ∈ annotations, a.end_ ≤ SIZE_MAX) :
    offsetForPosition annotations f pos = offsetForPositionSpec annotations f pos ∧
    ((∃ a ∈ annotations, Contains pos a) →
      ∃ l1 a l2, annotations = l1 ++ a :: l2 ∧ Contains pos a ∧
        (∀ b ∈ l1, Contains pos b → b.start < a.start) ∧
        (∀ b ∈ l2, Contains pos b → b.start ≤ a.start) ∧
        offsetForPosition annotations f pos = a.offset) ∧
    (∀ a ∈ annotations, Contains pos a → (∀ b ∈ annotations, Contains pos b → b = a) →
      offsetForPosition annotations f pos = a.offset) ∧
    ((∀ a ∈ annotations, ¬ Contains pos a) → offsetForPosition annotations f pos = f) ∧
    offsetForPosition (annotations.filter (fun a => a.type = RCodeAnnotationType.offset)) f pos
      = offsetForPosition annotations f pos ∧
    offsetForPosition scenario f 7 = 0x200 := by
  have key := offsetForPosition_fold f pos annotations hwf
  refine ⟨offsetForPosition_eq_spec annotations f pos hwf, ?_, ?_, ?_, ?_, ?_⟩
  · rintro ⟨a0, ha0, hc0⟩
    rcases key with ⟨hnone, _⟩ | ⟨l1, a, l2, hl, hca, hb1, hb2, hst⟩
    · exact absurd hc0 (hnone a0 ha0)
    · exact ⟨l1, a, l2, hl, hca, hb1, hb2, by unfold offsetForPosition; rw [hst]⟩
  · intro a0 ha0 hc0 huniq
    rcases key with ⟨hnone, _⟩ | ⟨l1, a, l2, hl, hca, _, _, hst⟩
    · exact absurd hc0 (hnone a0 ha0)
    · have : a = a0 := huniq a (by simp [hl]) hca
      unfold offsetForPosition; rw [hst, this]
  · intro hnone
    rcases key with ⟨_, hst⟩ | ⟨l1, a, l2, hl, hca, _, _, _⟩
    · unfold offsetForPosition; rw [hst]
    · exact absurd hca (hnone a (by simp [hl]))
  · unfold offsetForPosition
    rw [offsetForPosition_fold_filter]
  · have hs : ∀ a ∈ scenario, a.end_ ≤ SIZE_MAX := by decide
    have h0 : offsetForPosition scenario 0 7 = 0x200 := by decide
    rw [← h0]
    exact offsetForPosition_fallback_irrelevant scenario f 0 7 hs
      ⟨⟨5, 20, RCodeAnnotationType.offset, 0x200⟩, by decide, by decide⟩

/-- Witness of C1 on the scenario of the specification. -/
theorem offsetForPosition_refines_witness :
    (∀ a ∈ scenario, a.end_ ≤ SIZE_MAX) ∧ offsetForPosition scenario 0 7 = 0x200 :=
  ⟨by decide, (offsetForPosition_refines scenario 0 7 (by decide)).2.2.2.2.2⟩

/-! ## Lemmas on `positionForOffset` -/

theorem atOrBelow_cond (addr : Nat) (x : RCodeAnnotation) (hc : AtOrBelow addr x) :
    ¬ (x.type ≠ RCodeAnnotationType.offset ∨ x.offset > addr) := by
  obtain ⟨h0, h1⟩ := hc
  simp only [h0, ne_eq, not_true_eq_false, false_or]
  omega

theorem not_atOrBelow_cond (addr : Nat) (x : RCodeAnnotation) (hc : ¬ AtOrBelow addr x) :
    x.type ≠ RCodeAnnotationType.offset ∨ x.offset > addr := by
  unfold AtOrBelow at hc
  by_contra hcon
  push_neg at hcon
  exact hc ⟨hcon.1, hcon.2⟩

/-- Whatever the addresses are, the loop of `positionForOffset` ends in its initial state
when no annotation qualifies and otherwise in the state written for a qualifying one. -/
theorem positionForOffset_fold_mem (addr : Nat) (l : List RCodeAnnotation) :
    ((∀ a ∈ l, ¬ AtOrBelow addr a) ∧
        l.foldl (positionForOffsetStep addr) (SIZE_MAX, UT64_MAX) = (SIZE_MAX, UT64_MAX)) ∨
    (∃ a ∈ l, AtOrBelow addr a ∧
        l.foldl (positionForOffsetStep addr) (SIZE_MAX, UT64_MAX) = (a.start, a.offset)) := by
  induction l using List.reverseRecOn with
  | nil => left; simp
  | append_singleton l x ih =>
    rw [List.foldl_append, List.foldl_cons, List.foldl_nil]
    by_cases hc : AtOrBelow addr x
    · have hcond := atOrBelow_cond addr x hc
      right
      rcases ih with ⟨_, hst⟩ | ⟨a, ha, hca, hst⟩
      · refine ⟨x, by simp, hc, ?_⟩
        rw [hst]
        simp [positionForOffsetStep, hcond]
      · rw [hst]
        by_cases hskip : a.offset ≠ UT64_MAX ∧ a.offset ≥ x.offset
        · refine ⟨a, by simp [ha], hca, ?_⟩
          simp only [positionForOffsetStep, if_neg hcond, if_pos hskip]
        · refine ⟨x, by simp, hc, ?_⟩
          simp only [positionForOffsetStep, if_neg hcond, if_neg hskip]
    · have hcond := not_atOrBelow_cond addr x hc
      have hstep : ∀ st, positionForOffsetStep addr st x = st := by
        intro st; simp only [positionForOffsetStep, if_pos hcond]
      rw [hstep]
      rcases ih with ⟨hnone, hst⟩ | ⟨a, ha, hca, hst⟩
      · left
        refine ⟨?_, hst⟩
        intro b hb
        rcases List.mem_append.1 hb with hb | hb
        · exact hnone b hb
        · simp at hb; subst hb; exact hc
      · right
        exact ⟨a, by simp [ha], hca, hst⟩

/-- Loop invariant of `positionForOffset` when no qualifying annotation carries the
address `UT64_MAX`. -/
theorem positionForOffset_fold (addr : Nat) (l : List RCodeAnnotation)
    (hv : ∀ a ∈ l, AtOrBelow addr a → a.offset ≠ UT64_MAX) :
    ((∀ a ∈ l, ¬ AtOrBelow addr a) ∧
        l.foldl (positionForOffsetStep addr) (SIZE_MAX, UT64_MAX) = (SIZE_MAX, UT64_MAX)) ∨
    (∃ l1 a l2, l = l1 ++ a :: l2 ∧ AtOrBelow addr a ∧
        (∀ b ∈ l1, AtOrBelow addr b → b.offset < a.offset) ∧
        (∀ b ∈ l2, AtOrBelow addr b → b.offset ≤ a.offset) ∧
        l.foldl (positionForOffsetStep addr) (SIZE_MAX, UT64_MAX) = (a.start, a.offset)) := by
  induction l using List.reverseRecOn with
  | nil => left; simp
  | append_singleton l x ih =>
    have hv1 : ∀ a ∈ l, AtOrBelow addr a → a.offset ≠ UT64_MAX :=
      fun a ha => hv a (by simp [ha])
    rw [List.foldl_append, List.foldl_cons, List.foldl_nil]
    by_cases hc : AtOrBelow addr x
    · have hcond := atOrBelow_cond addr x hc
      right
      rcases ih hv1 with ⟨hnone, hst⟩ | ⟨l1, a, l2, hl, hca, hb1, hb2, hst⟩
      · refine ⟨l, x, [], by simp, hc, fun b hb hcb => absurd hcb (hnone b hb), by simp, ?_⟩
        rw [hst]
        simp [positionForOffsetStep, hcond]
      · have hane : a.offset ≠ UT64_MAX := hv1 a (by simp [hl]) hca
        rw [hst]
        by_cases hge : a.offset ≥ x.offset
        · refine ⟨l1, a, l2 ++ [x], by simp [hl], hca, hb1, ?_, ?_⟩
          · intro b hb hcb
            rcases List.mem_append.1 hb with hb | hb
            · exact hb2 b hb hcb
            · simp at hb; subst hb; exact hge
          · simp only [positionForOffsetStep, if_neg hcond, if_pos (And.intro hane hge)]
        · refine ⟨l, x, [], by simp, hc, ?_, by simp, ?_⟩
          · intro b hb hcb
            rw [hl] at hb
            simp only [List.mem_append, List.mem_cons] at hb
            rcases hb with hb | hb | hb
            · have := hb1 b hb hcb; omega
            · subst hb; omega
            · have := hb2 b hb hcb; omega
          · have hskip : ¬ (a.offset ≠ UT64_MAX ∧ a.offset ≥ x.offset) := fun h => hge h.2
            simp only [positionForOffsetStep, if_neg hcond, if_neg hskip]
    · have hcond := not_atOrBelow_cond addr x hc
      have hstep : ∀ st, positionForOffsetStep addr st x = st := by
        intro st; simp only [positionForOffsetStep, if_pos hcond]
      rw [hstep]
      rcases ih hv1 with ⟨hnone, hst⟩ | ⟨l1, a, l2, hl, hca, hb1, hb2, hst⟩
      · left
        refine ⟨?_, hst⟩
        intro b hb
        rcases List.mem_append.1 hb with hb | hb
        · exact hnone b hb
        · simp at hb; subst hb; exact hc
      · right
        refine ⟨l1, a, l2 ++ [x], by simp [hl], hca, hb1, ?_, hst⟩
        intro b hb hcb
        rcases List.mem_append.1 hb with hb | hb
        · exact hb2 b hb hcb
        · simp at hb; subst hb; exact absurd hcb hc

/-- The first qualifying annotation of largest address gives the result of
`positionForOffset` when no qualifying annotation carries `UT64_MAX`. -/
theorem positionForOffset_decomp (annotations : List RCodeAnnotation) (addr : Nat)
    (hv : ∀ a ∈ annotations, AtOrBelow addr a → a.offset ≠ UT64_MAX)
    (hex : ∃ a ∈ annotations, AtOrBelow addr a) :
    ∃ l1 a l2, annotations = l1 ++ a :: l2 ∧ AtOrBelow addr a ∧
      (∀ b ∈ l1, AtOrBelow addr b → b.offset < a.offset) ∧
      (∀ b ∈ l2, AtOrBelow addr b → b.offset ≤ a.offset) ∧
      positionForOffset annotations addr = a.start := by
  obtain ⟨a0, ha0, hc0⟩ := hex
  rcases positionForOffset_fold addr annotations hv with
    ⟨hnone, _⟩ | ⟨l1, a, l2, hl, hca, hb1, hb2, hst⟩
  · exact absurd hc0 (hnone a0 ha0)
  · exact ⟨l1, a, l2, hl, hca, hb1, hb2, by unfold positionForOffset; rw [hst]⟩

/-! ## Theorems on `positionForOffset` -/

/-- C2, refuted as stated: with an `OffsetRange` annotation at address `UT64_MAX` followed
by one at `0x100`, the query `UT64_MAX` returns position 5, the start of the annotation at
`0x100`, although the annotation at `UT64_MAX` has the largest address at most the query. -/
theorem positionForOffset_sentinel_counterexample :
    positionForOffset [⟨0, 10, RCodeAnnotationType.offset, UT64_MAX⟩,
        ⟨5, 20, RCodeAnnotationType.offset, 0x100⟩] UT64_MAX = 5 ∧
      ¬ ClosestFromBelow [⟨0, 10, RCodeAnnotationType.offset, UT64_MAX⟩,
        ⟨5, 20, RCodeAnnotationType.offset, 0x100⟩] UT64_MAX := by
  decide

/-- C2, amended: when no `OffsetRange` annotation with address at most `addr` carries the
address `UT64_MAX` (so for every `addr` below `UT64_MAX`), and some `OffsetRange`
annotation has address at most `addr`, `positionForOffset` returns the start of the first
annotation in list order whose address is the largest among those at most `addr`; on the
scenario of the specification address `0x150` maps to position 0. -/
theorem positionForOffset_closest (annotations : List RCodeAnnotation) (addr : Nat)
    (hv : ∀ a ∈ annotations, AtOrBelow addr a → a.offset ≠ UT64_MAX) :
    ((∃ a ∈ annotations, AtOrBelow addr a) →
      ∃ l1 a l2, annotations = l1 ++ a :: l2 ∧ AtOrBelow addr a ∧
        (∀ b ∈ l1, AtOrBelow addr b → b.offset < a.offset) ∧
        (∀ b ∈ l2, AtOrBelow addr b → b.offset ≤ a.offset) ∧
        positionForOffset annotations addr = a.start) ∧
    ClosestFromBelow annotations addr ∧
    positionForOffset scenario 0x150 = 0 := by
  refine ⟨positionForOffset_decomp annotations addr hv, ?_, by decide⟩
  intro hex
  obtain ⟨l1, a, l2, hl, hca, hb1, hb2, hres⟩ := positionForOffset_decomp annotations addr hv hex
  refine ⟨a, by simp [hl], hca, ?_, hres⟩
  intro b hb hcb
  rw [hl] at hb
  simp only [List.mem_append, List.mem_cons] at hb
  rcases hb with hb | hb | hb
  · exact Nat.le_of_lt (hb1 b hb hcb)
  · subst hb; exact Nat.le_refl _
  · exact hb2 b hb hcb

/-- Witness of C2 (amended) on the scenario of the specification. -/
theorem positionForOffset_closest_witness :
    (∀ a ∈ scenario, AtOrBelow 0x150 a → a.offset ≠ UT64_MAX) ∧
      ClosestFromBelow scenario 0x150 ∧ positionForOffset scenario 0x150 = 0 :=
  ⟨by decide, (positionForOffset_closest scenario 0x150 (by decide)).2⟩

/-- C4: for annotations with `start < end` and `end` a `size_t`, `positionForOffset` is a
total function that returns `SIZE_MAX` exactly when no `OffsetRange` annotation has an
address at most `addr`; a result other than `SIZE_MAX` is the start of such an annotation
of the list; on the scenario of the specification address `0x50` maps to `SIZE_MAX`. -/
theorem positionForOffset_sentinel_iff (annotations : List RCodeAnnotation) (addr : Nat)
    (hwf : ∀ a ∈ annotations, a.start < a.end_ ∧ a.end_ ≤ SIZE_MAX) :
    (positionForOffset annotations addr = SIZE_MAX ↔ ∀ a ∈ annotations, ¬ AtOrBelow addr a) ∧
    (positionForOffset annotations addr ≠ SIZE_MAX →
      ∃ a ∈ annotations, AtOrBelow addr a ∧ positionForOffset annotations addr = a.start) ∧
    positionForOffset scenario 0x50 = SIZE_MAX := by
  have key := positionForOffset_fold_mem addr annotations
  refine ⟨⟨?_, ?_⟩, ?_, by decide⟩
  · intro hres
    rcases key with ⟨hnone, _⟩ | ⟨a, ha, hca, hst⟩
    · exact hnone
    · exfalso
      unfold positionForOffset at hres
      rw [hst] at hres
      have := hwf a ha
      simp only at hres
      omega
  · intro hnone
    rcases key with ⟨_, hst⟩ | ⟨a, ha, hca, _⟩
    · unfold positionForOffset; rw [hst]
    · exact absurd hca (hnone a ha)
  · intro hres
    rcases key with ⟨_, hst⟩ | ⟨a, ha, hca, hst⟩
    · exfalso; apply hres; unfold positionForOffset; rw [hst]
    · exact ⟨a, ha, hca, by unfold positionForOffset; rw [hst]⟩

/-- Witness of C4 on the scenario of the specification. -/
theorem positionForOffset_sentinel_iff_witness :
    (∀ a ∈ scenario, a.start < a.end_ ∧ a.end_ ≤ SIZE_MAX) ∧
      positionForOffset scenario 0x50 = SIZE_MAX :=
  ⟨by decide, (positionForOffset_sentinel_iff scenario 0x50 (by decide)).2.2⟩

/-! ## Round trip -/

/-- C3, refuted as stated: (1) two `OffsetRange` annotations that start at the same position:
the address `0x100` of the second maps to position 0, which maps back to the address
`0x200` of the first; (2) an annotation at address `UT64_MAX` followed by one at `0x100`:
the address `UT64_MAX` maps to position 20, which maps back to `0x100`.  In both lists
every annotation has `start < end`. -/
theorem roundTrip_counterexample :
    ((∀ x ∈ sharedStart, x.start < x.end_) ∧
      (∃ x ∈ sharedStart, x.type = RCodeAnnotationType.offset ∧ x.offset = 0x100) ∧
      positionForOffset sharedStart 0x100 = 0 ∧
      offsetForPosition sharedStart 0 (positionForOffset sharedStart 0x100) = 0x200 ∧
      ¬ offsetForPosition sharedStart 0 (positionForOffset sharedStart 0x100) = 0x100) ∧
    ((∀ x ∈ sentinelAddress, x.start < x.end_) ∧
      (∃ x ∈ sentinelAddress, x.type = RCodeAnnotationType.offset ∧ x.offset = UT64_MAX) ∧
      positionForOffset sentinelAddress UT64_MAX = 20 ∧
      offsetForPosition sentinelAddress 0 (positionForOffset sentinelAddress UT64_MAX) = 0x100 ∧
      ¬ offsetForPosition sentinelAddress 0 (positionForOffset sentinelAddress UT64_MAX)
        = UT64_MAX) := by
  decide

/-- C3, amended: for annotations with `start < end` (and `end` a `size_t`) in which
`OffsetRange` annotations that start at the same position carry the same address, and for
every address `a` below `UT64_MAX` that is the address of some `OffsetRange` annotation,
`offsetForPosition (positionForOffset a) = a`, whatever the fallback. -/
theorem roundTrip_exact (annotations : List RCodeAnnotation) (a f : Nat)
    (hwf : ∀ x ∈ annotations, x.start < x.end_ ∧ x.end_ ≤ SIZE_MAX)
    (hsame : ∀ x ∈ annotations, ∀ y ∈ annotations, x.type = RCodeAnnotationType.offset →
      y.type = RCodeAnnotationType.offset → x.start = y.start → x.offset = y.offset)
    (hlt : a < UT64_MAX)
    (hpres : ∃ x ∈ annotations, x.type = RCodeAnnotationType.offset ∧ x.offset = a) :
    offsetForPosition annotations f (positionForOffset annotations a) = a := by
  obtain ⟨x, hx, hxt, hxa⟩ := hpres
  have hxc : AtOrBelow a x := ⟨hxt, by omega⟩
  have hv : ∀ b ∈ annotations, AtOrBelow a b → b.offset ≠ UT64_MAX := by
    intro b _ hb
    have := hb.2
    omega
  obtain ⟨l1, A, l2, hl, hcA, hb1, hb2, hres⟩ :=
    positionForOffset_decomp annotations a hv ⟨x, hx, hxc⟩
  have hA : A ∈ annotations := by simp [hl]
  have hAoff : A.offset = a := by
    have h1 : A.offset ≤ a := hcA.2
    have h2 : x.offset ≤ A.offset := by
      rw [hl] at hx
      simp only [List.mem_append, List.mem_cons] at hx
      rcases hx with hx | hx | hx
      · exact Nat.le_of_lt (hb1 x hx hxc)
      · subst hx; exact Nat.le_refl _
      · exact hb2 x hx hxc
    omega
  have hcont : Contains A.start A := ⟨hcA.1, Nat.le_refl _, (hwf A hA).1⟩
  rw [hres]
  rcases offsetForPosition_fold f A.start annotations (fun y hy => (hwf y hy).2) with
    ⟨hnone, _⟩ | ⟨m1, B, m2, hm, hcB, hc1, hc2, hst⟩
  · exact absurd hcont (hnone A hA)
  · have hB : B ∈ annotations := by simp [hm]
    have hle : A.start ≤ B.start := by
      rw [hm] at hA
      simp only [List.mem_append, List.mem_cons] at hA
      rcases hA with hA | hA | hA
      · exact Nat.le_of_lt (hc1 A hA hcont)
      · subst hA; exact Nat.le_refl _
      · exact hc2 A hA hcont
    have hge : B.start ≤ A.start := hcB.2.1
    have hoff : B.offset = A.offset :=
      hsame B hB A (by simp [hl]) hcB.1 hcA.1 (by omega)
    unfold offsetForPosition
    rw [hst]
    simp only
    omega

/-- Witness of C3 (amended) on the scenario of the specification, for the address `0x200`. -/
theorem roundTrip_exact_witness :
    (∀ x ∈ scenario, x.start < x.end_ ∧ x.end_ ≤ SIZE_MAX) ∧
      offsetForPosition scenario 0 (positionForOffset scenario 0x200) = 0x200 :=
  ⟨by decide, roundTrip_exact scenario 0x200 0 (by decide) (by decide) (by decide) (by decide)⟩

/-! ## Line information -/

theorem foldr_min_init (x init : Nat) (l : List Nat) :
    l.foldr min (min init x) = min (l.foldr min init) x := by
  induction l with
  | nil => rfl
  | cons y l ih =>
    simp only [List.foldr_cons, ih]
    omega

theorem foldr_min_le_init (init : Nat) (l : List Nat) : l.foldr min init ≤ init := by
  induction l with
  | nil => exact Nat.le_refl _
  | cons y l ih =>
    simp only [List.foldr_cons]
    omega

theorem foldr_min_le_mem (init : Nat) (l : List Nat) : ∀ y ∈ l, l.foldr min init ≤ y := by
  induction l with
  | nil => intro y hy; simp at hy
  | cons z l ih =>
    intro y hy
    simp only [List.foldr_cons]
    rcases List.mem_cons.1 hy with h | h
    · subst h; omega
    · have := ih y h; omega

theorem foldr_min_mem (init : Nat) (l : List Nat) :
    l.foldr min init = init ∨ l.foldr min init ∈ l := by
  induction l with
  | nil => left; rfl
  | cons z l ih =>
    simp only [List.foldr_cons, List.mem_cons]
    rcases Nat.le_total z (l.foldr min init) with h | h
    · right; left; omega
    · rcases ih with ih | ih
      · left; omega
      · right; right
        have : min z (l.foldr min init) = l.foldr min init := by omega
        rw [this]; exact ih

/-- The first loop of `gatherBreakpointInfo` computes the minimum of its initial value and
of the addresses of the counted annotations. -/
theorem firstOffset_fold (startPos endPos : Nat) (l : List RCodeAnnotation) :
    ∀ init : Nat, l.foldl (firstOffsetStep startPos endPos) init =
      ((l.filter (fun a => CountedInLine startPos endPos a)).map
        (fun a => a.offset)).foldr min init := by
  induction l with
  | nil => intro init; rfl
  | cons x l ih =>
    intro init
    rw [List.foldl_cons]
    by_cases hc : CountedInLine startPos endPos x
    · rw [List.filter_cons_of_pos (by simpa using hc), List.map_cons, List.foldr_cons, ih]
      have hstep : firstOffsetStep startPos endPos init x = min init x.offset := by
        have h0 : ¬ x.type ≠ RCodeAnnotationType.offset := by simp [hc.1]
        simp only [firstOffsetStep, if_neg h0, if_pos hc.2]
        split <;> omega
      rw [hstep, foldr_min_init]
      omega
    · rw [List.filter_cons_of_neg (by simpa using hc), ih]
      have hstep : firstOffsetStep startPos endPos init x = init := by
        unfold firstOffsetStep
        by_cases h0 : x.type ≠ RCodeAnnotationType.offset
        · rw [if_pos h0]
        · rw [if_neg h0, if_neg]
          intro h
          exact hc ⟨by simpa using h0, h⟩
      rw [hstep]

/-- C5, refuted as stated: one `OffsetRange` annotation `[0, 100)` at address `0x100` and
the line `[10, 20)`: the annotation begins before the line and extends past its end, so it
intersects the line and the claimed value is `0x100`; the value stored is `RVA_MAX`. -/
theorem gatherBreakpointInfo_counterexample :
    (10 : Nat) < 20 ∧
    Intersects 10 20 ⟨0, 100, RCodeAnnotationType.offset, 0x100⟩ ∧
    firstOffsetInLineSpec [⟨0, 100, RCodeAnnotationType.offset, 0x100⟩] 10 20 = 0x100 ∧
    (gatherBreakpointInfo ⟨"x", [⟨0, 100, RCodeAnnotationType.offset, 0x100⟩]⟩ []
      ⟨"x", [⟨0, 100, RCodeAnnotationType.offset, 0x100⟩]⟩ 10 20).1 = RVA_MAX ∧
    ¬ (gatherBreakpointInfo ⟨"x", [⟨0, 100, RCodeAnnotationType.offset, 0x100⟩]⟩ []
      ⟨"x", [⟨0, 100, RCodeAnnotationType.offset, 0x100⟩]⟩ 10 20).1 =
      firstOffsetInLineSpec [⟨0, 100, RCodeAnnotationType.offset, 0x100⟩] 10 20 := by
  decide

/-- C5, amended: for every annotation list and every range, the first-offset-in-line value
that `gatherBreakpointInfo` stores is the minimum of `RVA_MAX` and of the addresses of the
`OffsetRange` annotations whose start lies in `[startPos, endPos)` or whose end lies
strictly between `startPos` and `endPos` (each of which, when its `start < end`, intersects
the range); it is `RVA_MAX` when there is no such annotation; annotations of other kinds
are ignored. -/
theorem gatherBreakpointInfo_firstOffset (code codeDecompiled : RAnnotatedCode)
    (functionBreakpoints : List Nat) (startPos endPos : Nat) :
    (gatherBreakpointInfo code functionBreakpoints codeDecompiled startPos endPos).1 =
      ((codeDecompiled.annotations.filter (fun a => CountedInLine startPos endPos a)).map
        (fun a => a.offset)).foldr min RVA_MAX ∧
    (gatherBreakpointInfo code functionBreakpoints codeDecompiled startPos endPos).1 ≤ RVA_MAX ∧
    (∀ a ∈ codeDecompiled.annotations, CountedInLine startPos endPos a →
      (gatherBreakpointInfo code functionBreakpoints codeDecompiled startPos endPos).1
        ≤ a.offset) ∧
    ((gatherBreakpointInfo code functionBreakpoints codeDecompiled startPos endPos).1 = RVA_MAX ∨
      ∃ a ∈ codeDecompiled.annotations, CountedInLine startPos endPos a ∧
        (gatherBreakpointInfo code functionBreakpoints codeDecompiled startPos endPos).1
          = a.offset) ∧
    ((∀ a ∈ codeDecompiled.annotations, ¬ CountedInLine startPos endPos a) →
      (gatherBreakpointInfo code functionBreakpoints codeDecompiled startPos endPos).1
        = RVA_MAX) ∧
    (∀ a : RCodeAnnotation, a.start < a.end_ → CountedInLine startPos endPos a →
      Intersects startPos endPos a) ∧
    (gatherBreakpointInfo code functionBreakpoints
      ⟨codeDecompiled.code, codeDecompiled.annotations.filter
          (fun a => a.type = RCodeAnnotationType.offset)⟩ startPos endPos).1 =
      (gatherBreakpointInfo code functionBreakpoints codeDecompiled startPos endPos).1 := by
  have hres : ∀ c : RAnnotatedCode,
      (gatherBreakpointInfo code functionBreakpoints c startPos endPos).1 =
        ((c.annotations.filter (fun a => CountedInLine startPos endPos a)).map
          (fun a => a.offset)).foldr min RVA_MAX := by
    intro c
    simp only [gatherBreakpointInfo]
    exact firstOffset_fold startPos endPos c.annotations RVA_MAX
  rw [hres, hres]
  refine ⟨rfl, foldr_min_le_init _ _, ?_, ?_, ?_, ?_, ?_⟩
  · intro a ha hc
    apply foldr_min_le_mem
    exact List.mem_map.2 ⟨a, by simp [List.mem_filter, ha, hc], rfl⟩
  · rcases foldr_min_mem RVA_MAX
      ((codeDecompiled.annotations.filter (fun a => CountedInLine startPos endPos a)).map
        (fun a => a.offset)) with h | h
    · left; exact h
    · right
      obtain ⟨a, ha, hoff⟩ := List.mem_map.1 h
      have ha2 := List.mem_filter.1 ha
      exact ⟨a, ha2.1, by simpa using ha2.2, hoff.symm⟩
  · intro hnone
    have : codeDecompiled.annotations.filter (fun a => CountedInLine startPos endPos a) = [] := by
      rw [List.filter_eq_nil_iff]
      intro a ha
      simpa using hnone a ha
    rw [this]
    rfl
  · intro a hlt hc
    obtain ⟨h0, h1⟩ := hc
    refine ⟨h0, ?_, ?_⟩ <;> omega
  · have : (codeDecompiled.annotations.filter
          (fun a => a.type = RCodeAnnotationType.offset)).filter
          (fun a => CountedInLine startPos endPos a) =
        codeDecompiled.annotations.filter (fun a => CountedInLine startPos endPos a) := by
      rw [List.filter_filter]
      apply List.filter_congr
      intro a _
      by_cases hc : CountedInLine startPos endPos a
      · simp [hc, hc.1]
      · simp [hc]
    simp only [this]

/-! ## Lemmas on the helpers of the controller -/

theorem sameMembers_refl (a : State) : SameMembers a a := by
  simp [SameMembers]

theorem sameMembers_trans (a b c : State) (h1 : SameMembers a b) (h2 : SameMembers b c) :
    SameMembers a c := by
  obtain ⟨a1, a2, a3, a4, a5, a6, a7, a8⟩ := h1
  obtain ⟨b1, b2, b3, b4, b5, b6, b7, b8⟩ := h2
  exact ⟨b1.trans a1, b2.trans a2, b3.trans a3, b4.trans a4, b5.trans a5, b6.trans a6,
    b7.trans a7, b8.trans a8⟩

theorem updateRefreshButton_same (dec : Option Decompiler) (w : State) :
    SameMembers w (updateRefreshButton dec w) := by
  simp [SameMembers, updateRefreshButton]

theorem updateRefreshButton_sliders (dec : Option Decompiler) (w : State) :
    (updateRefreshButton dec w).horizontalSliderPosition = w.horizontalSliderPosition ∧
    (updateRefreshButton dec w).verticalSliderPosition = w.verticalSliderPosition := by
  simp [updateRefreshButton]

theorem setPlainText_same (text : String) (w : State) : SameMembers w (setPlainText text w) := by
  simp [SameMembers, setPlainText]

theorem highlightPC_same (env : Env) (w : State) : SameMembers w (highlightPC env w) := by
  unfold highlightPC
  split
  · exact sameMembers_refl w
  · split
    · exact sameMembers_refl w
    · simp [SameMembers, colorLine]

theorem highlightBreakpointsStep_same (w : State) (bp : Nat) :
    SameMembers w (highlightBreakpointsStep w bp) := by
  unfold highlightBreakpointsStep
  split
  · exact sameMembers_refl w
  · split
    · exact sameMembers_refl w
    · simp [SameMembers]

theorem highlightBreakpoints_fold_same (l : List Nat) :
    ∀ w : State, SameMembers w (l.foldl highlightBreakpointsStep w) := by
  induction l with
  | nil => intro w; exact sameMembers_refl w
  | cons bp l ih =>
    intro w
    rw [List.foldl_cons]
    exact sameMembers_trans _ _ _ (highlightBreakpointsStep_same w bp) (ih _)

theorem highlightBreakpoints_same (env : Env) (w : State) :
    SameMembers w (highlightBreakpoints env w) :=
  highlightBreakpoints_fold_same _ w

theorem updateSelection_same (env : Env) (w : State) :
    SameMembers w (updateSelection env w) := by
  unfold updateSelection
  refine sameMembers_trans _ _ _ ?_ (highlightPC_same env _)
  simp [SameMembers]

theorem updateCursorPosition_same (env : Env) (w : State) :
    SameMembers w (updateCursorPosition env w) := by
  unfold updateCursorPosition
  split
  · exact sameMembers_refl w
  · refine sameMembers_trans _ _ _ ?_ (updateSelection_same env _)
    simp [SameMembers]

/-- The calls of the body of `doRefresh`: none, or one `decompileAt` made while the backend
answered that it is not running. -/
theorem doRefreshBody_calls (env : Env) (addr : Nat) (w : State) :
    (doRefreshBody env addr w).2 = [] ∨
      (doRefreshBody env addr w).2 = [Call.decompileAt addr false] := by
  unfold doRefreshBody
  by_cases hg : env.attemptRefresh = false
  · simp [hg]
  · by_cases hi : w.decompilerComboBoxIndex < 0
    · simp [hg, hi]
    · cases hdec : env.currentDecompiler with
      | none => simp [hg, hi]
      | some d =>
        by_cases hr : d.isRunning = true
        · simp [hg, hi, hr]
        · by_cases ha : addr = RVA_INVALID
          · simp [hg, hi, hr, ha]
          · have hf : d.isRunning = false := by simpa using hr
            by_cases hbg : env.runsInBackground = true
            · simp [hg, hi, hr, ha, hbg, hf]
            · simp [hg, hi, hr, ha, hbg, hf]

/-! ## Refresh control -/

/-- C9: for every auto-refresh setting and every answer of `getCurrentDecompiler()`,
`updateRefreshButton` leaves the refresh control enabled exactly when auto-refresh is off
and a backend is selected that is not running, leaves its label "Cancel" exactly when a
backend is selected, running and cancelable, and "Refresh" otherwise, and changes nothing
else; so the control is disabled whenever the selected backend is running, and it is
disabled after every `doRefresh` that started a run which the backend reports as running. -/
theorem updateRefreshButton_control (dec : Option Decompiler) (w : State) :
    ((updateRefreshButton dec w).refreshButtonEnabled = true ↔
      (w.autoRefreshEnabled = false ∧ ∃ d, dec = some d ∧ d.isRunning = false)) ∧
    ((updateRefreshButton dec w).refreshButtonText = "Cancel" ↔
      ∃ d, dec = some d ∧ d.isRunning = true ∧ d.isCancelable = true) ∧
    ((updateRefreshButton dec w).refreshButtonText = "Refresh" ↔
      ¬ ∃ d, dec = some d ∧ d.isRunning = true ∧ d.isCancelable = true) ∧
    (updateRefreshButton dec w =
      { w with refreshButtonEnabled := (updateRefreshButton dec w).refreshButtonEnabled,
               refreshButtonText := (updateRefreshButton dec w).refreshButtonText }) ∧
    (∀ d, dec = some d → d.isRunning = true →
      (updateRefreshButton dec w).refreshButtonEnabled = false) ∧
    (∀ (env : Env) (addr : Nat), decompileAtCalls (doRefresh env addr w).2 ≠ [] →
      env.runsInBackground = true → (doRefresh env addr w).1.refreshButtonEnabled = false) := by
  have hne : ¬ ("Refresh" = "Cancel") := by decide
  have hne2 : ¬ ("Cancel" = "Refresh") := by decide
  refine ⟨?_, ?_, ?_, rfl, ?_, ?_⟩
  · cases dec with
    | none => simp [updateRefreshButton]
    | some d => simp [updateRefreshButton]
  · cases dec with
    | none => simp [updateRefreshButton, hne]
    | some d =>
      by_cases h : (d.isRunning && d.isCancelable) = true
      · have h2 := h
        simp only [Bool.and_eq_true] at h2
        simp [updateRefreshButton, h2.1, h2.2]
      · have h2 : ¬ (d.isRunning = true ∧ d.isCancelable = true) := by
          simpa only [Bool.and_eq_true] using h
        simp only [updateRefreshButton, if_neg h, hne, false_iff]
        rintro ⟨d0, hd0, hr⟩
        cases hd0
        exact h2 hr
  · cases dec with
    | none => simp [updateRefreshButton]
    | some d =>
      by_cases h : (d.isRunning && d.isCancelable) = true
      · have h2 := h
        simp only [Bool.and_eq_true] at h2
        simp [updateRefreshButton, h2.1, h2.2, hne2]
      · have h2 : ¬ (d.isRunning = true ∧ d.isCancelable = true) := by
          simpa only [Bool.and_eq_true] using h
        simp only [updateRefreshButton, if_neg h, true_iff]
        rintro ⟨d0, hd0, hr⟩
        cases hd0
        exact h2 hr
  · intro d hd hr
    subst hd
    simp [updateRefreshButton, hr]
  · intro env addr hcall hbg
    unfold doRefresh at hcall ⊢
    simp only [decompileAtCalls] at hcall
    unfold doRefreshBody at hcall ⊢
    by_cases hg : env.attemptRefresh = false
    · simp [hg, decompileAtCalls] at hcall
    · by_cases hi : w.decompilerComboBoxIndex < 0
      · simp [hg, hi, decompileAtCalls] at hcall
      · cases hdec : env.currentDecompiler with
        | none => simp [hg, hi, hdec, decompileAtCalls] at hcall
        | some d =>
          by_cases hr : d.isRunning = true
          · simp [hg, hi, hdec, hr, decompileAtCalls] at hcall
          · by_cases ha : addr = RVA_INVALID
            · simp [hg, hi, hdec, hr, ha, decompileAtCalls] at hcall
            · simp [hg, hi, hr, ha, hbg, updateRefreshButton]

/-! ## Lemmas on `doRefresh` and `decompilationFinished` -/

/-- The four outcomes of the body of `doRefresh`. -/
theorem doRefreshBody_outcome (env : Env) (addr : Nat) (w : State) :
    ((env.attemptRefresh = false ∨ w.decompilerComboBoxIndex < 0
        ∨ env.currentDecompiler = none) ∧ doRefreshBody env addr w = (w, [])) ∨
    (∃ d, env.attemptRefresh = true ∧ 0 ≤ w.decompilerComboBoxIndex ∧
      env.currentDecompiler = some d ∧ d.isRunning = true ∧
      doRefreshBody env addr w = ({ w with decompilerWasBusy := true }, [])) ∨
    (∃ d, env.attemptRefresh = true ∧ 0 ≤ w.decompilerComboBoxIndex ∧
      env.currentDecompiler = some d ∧ d.isRunning = false ∧ addr = RVA_INVALID ∧
      doRefreshBody env addr w =
        (setPlainText "Click Refresh to generate Decompiler from current offset." w, [])) ∨
    (∃ d, env.attemptRefresh = true ∧ 0 ≤ w.decompilerComboBoxIndex ∧
      env.currentDecompiler = some d ∧ d.isRunning = false ∧ addr ≠ RVA_INVALID ∧
      (doRefreshBody env addr w).2 = [Call.decompileAt addr false] ∧
      (doRefreshBody env addr w).1.previousFunctionAddr = w.decompiledFunctionAddr ∧
      (doRefreshBody env addr w).1.decompiledFunctionAddr = env.getFunctionStart addr ∧
      (doRefreshBody env addr w).1.decompilerWasBusy = w.decompilerWasBusy ∧
      (doRefreshBody env addr w).1.scrollerHorizontal = w.scrollerHorizontal ∧
      (doRefreshBody env addr w).1.scrollerVertical = w.scrollerVertical) := by
  unfold doRefreshBody
  by_cases hg : env.attemptRefresh = false
  · left; simp [hg]
  · have hg1 : env.attemptRefresh = true := by simpa using hg
    by_cases hi : w.decompilerComboBoxIndex < 0
    · left; simp [hi]
    · have hi1 : 0 ≤ w.decompilerComboBoxIndex := by omega
      cases hdec : env.currentDecompiler with
      | none => left; simp
      | some d =>
        by_cases hr : d.isRunning = true
        · right; left
          exact ⟨d, hg1, hi1, rfl, hr, by simp [hg, hi, hr]⟩
        · have hf : d.isRunning = false := by simpa using hr
          by_cases ha : addr = RVA_INVALID
          · right; right; left
            exact ⟨d, hg1, hi1, rfl, hf, ha, by simp [hg, hi, hr, ha]⟩
          · right; right; right
            refine ⟨d, hg1, hi1, rfl, hf, ha, ?_⟩
            by_cases hbg : env.runsInBackground = true
            · simp [hg, hi, hr, ha, hbg, hf, updateRefreshButton]
            · simp [hg, hi, hr, ha, hbg, hf]

theorem decompileAtCalls_append (l1 l2 : List Call) :
    decompileAtCalls (l1 ++ l2) = decompileAtCalls l1 ++ decompileAtCalls l2 := by
  induction l1 with
  | nil => rfl
  | cons c l1 ih => cases c <;> simp [decompileAtCalls, ih]

theorem refreshRequests_append (l1 l2 : List Call) :
    refreshRequests (l1 ++ l2) = refreshRequests l1 ++ refreshRequests l2 := by
  induction l1 with
  | nil => rfl
  | cons c l1 ih => cases c <;> simp [refreshRequests, ih]

theorem sliderWrites_append (l1 l2 : List Call) :
    sliderWrites (l1 ++ l2) = sliderWrites l1 ++ sliderWrites l2 := by
  induction l1 with
  | nil => rfl
  | cons c l1 ih => cases c <;> simp [sliderWrites, ih]

/-- The body of `doRefresh` neither enters `doRefresh` again nor writes to a scroll bar, and
every `decompileAt` it calls is made while the backend is not running. -/
theorem doRefreshBody_counts (env : Env) (addr : Nat) (w : State) :
    refreshRequests (doRefreshBody env addr w).2 = [] ∧
    sliderWrites (doRefreshBody env addr w).2 = [] ∧
    (∀ c ∈ decompileAtCalls (doRefreshBody env addr w).2, c.2 = false) := by
  rcases doRefreshBody_calls env addr w with h | h
  · rw [h]; simp [refreshRequests, sliderWrites, decompileAtCalls]
  · rw [h]; simp [refreshRequests, sliderWrites, decompileAtCalls]

/-- The body of `doRefresh` leaves the saved scroll positions and the auto-refresh setting
alone. -/
theorem doRefreshBody_members (env : Env) (addr : Nat) (w : State) :
    (doRefreshBody env addr w).1.scrollerHorizontal = w.scrollerHorizontal ∧
    (doRefreshBody env addr w).1.scrollerVertical = w.scrollerVertical := by
  rcases doRefreshBody_outcome env addr w with ⟨_, h⟩ | ⟨d, _, _, _, _, h⟩ |
    ⟨d, _, _, _, _, _, h⟩ | ⟨d, _, _, _, _, _, _, _, _, _, h1, h2⟩
  · rw [h]; exact ⟨rfl, rfl⟩
  · rw [h]; exact ⟨rfl, rfl⟩
  · rw [h]; exact ⟨rfl, rfl⟩
  · exact ⟨h1, h2⟩

/-- The pending flag after the body of `doRefresh`: set before, or set because the gate
permitted and the selected backend was running. -/
theorem doRefreshBody_busy (env : Env) (addr : Nat) (w : State) :
    (doRefreshBody env addr w).1.decompilerWasBusy = true ↔
      (w.decompilerWasBusy = true ∨
        (env.attemptRefresh = true ∧ 0 ≤ w.decompilerComboBoxIndex ∧
          ∃ d, env.currentDecompiler = some d ∧ d.isRunning = true)) := by
  rcases doRefreshBody_outcome env addr w with ⟨hc, h⟩ | ⟨d, hg, hi, hd, hr, h⟩ |
    ⟨d, hg, hi, hd, hr, _, h⟩ | ⟨d, hg, hi, hd, hr, _, _, _, _, hb, _, _⟩
  · rw [h]
    constructor
    · intro hb; exact Or.inl hb
    · rintro (hb | ⟨hg, hi, d, hd, _⟩)
      · exact hb
      · rcases hc with hc | hc | hc
        · rw [hc] at hg; cases hg
        · omega
        · rw [hc] at hd; cases hd
  · rw [h]
    constructor
    · intro _; exact Or.inr ⟨hg, hi, d, hd, hr⟩
    · intro _; rfl
  · rw [h]
    constructor
    · intro hb; exact Or.inl hb
    · rintro (hb | ⟨_, _, d2, hd2, hr2⟩)
      · exact hb
      · rw [hd] at hd2
        cases hd2
        rw [hr] at hr2; cases hr2
  · rw [hb]
    constructor
    · intro hb; exact Or.inl hb
    · rintro (hb | ⟨_, _, d2, hd2, hr2⟩)
      · exact hb
      · rw [hd] at hd2
        cases hd2
        rw [hr] at hr2; cases hr2

theorem decompilationFinished_empty (env : Env) (codeDecompiled : RAnnotatedCode) (w : State)
    (htext : codeDecompiled.code.isEmpty = true) :
    decompilationFinished env codeDecompiled w =
      (setPlainText "Cannot decompile at this address (Not a function?)"
        (decompilationFinishedReset env codeDecompiled w), []) := by
  unfold decompilationFinished decompilationFinishedReset
  simp only [htext, if_true]

theorem decompilationFinished_text (env : Env) (codeDecompiled : RAnnotatedCode) (w : State)
    (htext : codeDecompiled.code.isEmpty = false) :
    decompilationFinished env codeDecompiled w =
      if w.previousFunctionAddr = w.decompiledFunctionAddr then
        ({ (decompilationFinishedDrained env codeDecompiled w).1 with
            horizontalSliderPosition :=
              (decompilationFinishedDrained env codeDecompiled w).1.scrollerHorizontal,
            verticalSliderPosition :=
              (decompilationFinishedDrained env codeDecompiled w).1.scrollerVertical },
          (decompilationFinishedDrained env codeDecompiled w).2 ++
            [Call.setSliderPosition false
                (decompilationFinishedDrained env codeDecompiled w).1.scrollerHorizontal,
              Call.setSliderPosition true
                (decompilationFinishedDrained env codeDecompiled w).1.scrollerVertical])
      else decompilationFinishedDrained env codeDecompiled w := by
  unfold decompilationFinished decompilationFinishedDrained decompilationFinishedShown
    decompilationFinishedReset
  simp only [htext, Bool.false_eq_true, if_false, decide_eq_true_eq]

/-- The members after the document was shown: what they were on entry, the saved scroll
positions being the scroll positions on entry when the function is the one shown before. -/
theorem decompilationFinishedShown_members (env : Env) (codeDecompiled : RAnnotatedCode)
    (w : State) :
    (decompilationFinishedShown env codeDecompiled w).decompilerWasBusy = w.decompilerWasBusy ∧
    (decompilationFinishedShown env codeDecompiled w).autoRefreshEnabled
      = w.autoRefreshEnabled ∧
    (decompilationFinishedShown env codeDecompiled w).decompilerComboBoxIndex
      = w.decompilerComboBoxIndex ∧
    (w.previousFunctionAddr = w.decompiledFunctionAddr →
      (decompilationFinishedShown env codeDecompiled w).scrollerHorizontal
        = w.horizontalSliderPosition ∧
      (decompilationFinishedShown env codeDecompiled w).scrollerVertical
        = w.verticalSliderPosition) ∧
    (w.previousFunctionAddr ≠ w.decompiledFunctionAddr →
      (decompilationFinishedShown env codeDecompiled w).scrollerHorizontal
        = w.scrollerHorizontal ∧
      (decompilationFinishedShown env codeDecompiled w).scrollerVertical
        = w.scrollerVertical) := by
  have hs : SameMembers (decompilationFinishedReset env codeDecompiled w)
      (decompilationFinishedShown env codeDecompiled w) := by
    unfold decompilationFinishedShown
    exact sameMembers_trans _ _ _ (setPlainText_same _ _)
      (sameMembers_trans _ _ _ (updateCursorPosition_same env _)
        (sameMembers_trans _ _ _ (highlightPC_same env _) (highlightBreakpoints_same env _)))
  obtain ⟨s1, s2, s3, _, _, s6, s7, _⟩ := hs
  rw [s1, s2, s3, s6, s7]
  unfold decompilationFinishedReset
  by_cases hsame : w.previousFunctionAddr = w.decompiledFunctionAddr
  · simp [hsame, updateRefreshButton]
  · simp [hsame, updateRefreshButton]

/-- The calls of `doAutoRefresh`: one entry into `doRefresh`, for the current offset, when
auto-refresh is enabled and none when it is not; no write to a scroll bar; every
`decompileAt` made while the backend is not running. -/
theorem doAutoRefresh_calls (env : Env) (w : State) :
    refreshRequests (doAutoRefresh env w).2
      = (if w.autoRefreshEnabled = true then [env.getOffset] else []) ∧
    sliderWrites (doAutoRefresh env w).2 = [] ∧
    (∀ c ∈ decompileAtCalls (doAutoRefresh env w).2, c.2 = false) := by
  obtain ⟨h1, h2, h3⟩ := doRefreshBody_counts env env.getOffset w
  unfold doAutoRefresh doRefreshDefault doRefresh
  by_cases ha : w.autoRefreshEnabled = true
  · have hf : ¬ w.autoRefreshEnabled = false := by simp [ha]
    simp only [if_neg hf, if_pos ha, refreshRequests, sliderWrites, decompileAtCalls, h1, h2]
    exact ⟨trivial, trivial, h3⟩
  · have hf : w.autoRefreshEnabled = false := by simpa using ha
    simp [hf, refreshRequests, sliderWrites, decompileAtCalls]

/-- The members after `doAutoRefresh`. -/
theorem doAutoRefresh_members (env : Env) (w : State) :
    (doAutoRefresh env w).1.scrollerHorizontal = w.scrollerHorizontal ∧
    (doAutoRefresh env w).1.scrollerVertical = w.scrollerVertical ∧
    ((doAutoRefresh env w).1.decompilerWasBusy = true ↔
      (w.decompilerWasBusy = true ∨
        (w.autoRefreshEnabled = true ∧ env.attemptRefresh = true ∧
          0 ≤ w.decompilerComboBoxIndex ∧
          ∃ d, env.currentDecompiler = some d ∧ d.isRunning = true))) := by
  obtain ⟨h1, h2⟩ := doRefreshBody_members env env.getOffset w
  have h3 := doRefreshBody_busy env env.getOffset w
  unfold doAutoRefresh doRefreshDefault doRefresh
  by_cases ha : w.autoRefreshEnabled = true
  · have hf : ¬ w.autoRefreshEnabled = false := by simp [ha]
    rw [if_neg hf]
    refine ⟨h1, h2, ?_⟩
    show (doRefreshBody env env.getOffset w).1.decompilerWasBusy = true ↔ _
    rw [h3]
    simp only [ha, true_and]
  · have hf : w.autoRefreshEnabled = false := by simpa using ha
    simp [hf]

/-- The calls and the members after the test of the pending flag. -/
theorem decompilationFinishedDrained_facts (env : Env) (codeDecompiled : RAnnotatedCode)
    (w : State) :
    refreshRequests (decompilationFinishedDrained env codeDecompiled w).2
      = (if w.decompilerWasBusy = true ∧ w.autoRefreshEnabled = true then [env.getOffset]
          else []) ∧
    sliderWrites (decompilationFinishedDrained env codeDecompiled w).2 = [] ∧
    (∀ c ∈ decompileAtCalls (decompilationFinishedDrained env codeDecompiled w).2,
      c.2 = false) ∧
    (decompilationFinishedDrained env codeDecompiled w).1.scrollerHorizontal
      = (decompilationFinishedShown env codeDecompiled w).scrollerHorizontal ∧
    (decompilationFinishedDrained env codeDecompiled w).1.scrollerVertical
      = (decompilationFinishedShown env codeDecompiled w).scrollerVertical ∧
    ((decompilationFinishedDrained env codeDecompiled w).1.decompilerWasBusy = true ↔
      (w.decompilerWasBusy = true ∧ w.autoRefreshEnabled = true ∧ env.attemptRefresh = true ∧
        0 ≤ w.decompilerComboBoxIndex ∧
        ∃ d, env.currentDecompiler = some d ∧ d.isRunning = true)) := by
  obtain ⟨m1, m2, m3, _, _⟩ := decompilationFinishedShown_members env codeDecompiled w
  unfold decompilationFinishedDrained
  by_cases hb : w.decompilerWasBusy = true
  · have hb1 : (decompilationFinishedShown env codeDecompiled w).decompilerWasBusy = true := by
      rw [m1]; exact hb
    rw [if_pos hb1]
    obtain ⟨c1, c2, c3⟩ := doAutoRefresh_calls env
      { decompilationFinishedShown env codeDecompiled w with decompilerWasBusy := false }
    obtain ⟨n1, n2, n3⟩ := doAutoRefresh_members env
      { decompilationFinishedShown env codeDecompiled w with decompilerWasBusy := false }
    refine ⟨?_, c2, c3, n1, n2, ?_⟩
    · rw [c1]
      simp only [m2, hb, true_and]
    · rw [n3]
      simp only [m2, m3, hb, true_and, Bool.false_eq_true, false_or]
  · have hb1 : ¬ (decompilationFinishedShown env codeDecompiled w).decompilerWasBusy = true := by
      rw [m1]; exact hb
    rw [if_neg hb1]
    refine ⟨by simp [refreshRequests, hb], by simp [sliderWrites], by simp [decompileAtCalls],
      rfl, rfl, ?_⟩
    simp [m1, hb]

/-- Every `decompileAt` called while one event is handled is made while the backend is not
running. -/
theorem step_decompileAt (env : Env) (ev : Event) (w : State) :
    ∀ c ∈ decompileAtCalls (step env ev w).2, c.2 = false := by
  cases ev with
  | doRefresh addr =>
    obtain ⟨_, _, h3⟩ := doRefreshBody_counts env addr w
    simpa [step, doRefresh, decompileAtCalls] using h3
  | decompilationFinished codeDecompiled =>
    simp only [step]
    cases htext : codeDecompiled.code.isEmpty with
    | true =>
      rw [decompilationFinished_empty env codeDecompiled w htext]
      simp [decompileAtCalls]
    | false =>
      obtain ⟨_, _, h3, _⟩ := decompilationFinishedDrained_facts env codeDecompiled w
      rw [decompilationFinished_text env codeDecompiled w htext]
      split
      · simpa [decompileAtCalls_append, decompileAtCalls] using h3
      · exact h3

/-- Every `decompileAt` called during a sequence of events is made while the backend is not
running. -/
theorem run_decompileAt (events : List (Env × Event)) :
    ∀ w : State, ∀ c ∈ decompileAtCalls (run events w).2, c.2 = false := by
  induction events with
  | nil => intro w c hc; simp [run, decompileAtCalls] at hc
  | cons e rest ih =>
    intro w c hc
    obtain ⟨env, ev⟩ := e
    simp only [run, decompileAtCalls_append, List.mem_append] at hc
    rcases hc with hc | hc
    · exact step_decompileAt env ev w c hc
    · exact ih _ c hc

/-! ## Theorems on the controller -/

/-- C6: in every state and environment in which the selected backend reports `isRunning`,
`doRefresh`, for every address, calls no `decompileAt` (it makes no call at all) and leaves
`previousFunctionAddr` and `decompiledFunctionAddr` unchanged; when the gate permits and
the combo box has a selection its only state change is setting `decompilerWasBusy`, and
otherwise the state is unchanged.  Over every sequence of `doRefresh` and
`decompilationFinished` events, in whatever environments, every `decompileAt` is called
while the backend reports that it is not running. -/
theorem doRefresh_while_running (env : Env) (addr : Nat) (w : State) (d : Decompiler)
    (hdec : env.currentDecompiler = some d) (hrun : d.isRunning = true) :
    decompileAtCalls (doRefresh env addr w).2 = [] ∧
    (doRefresh env addr w).2 = [Call.doRefresh addr] ∧
    (doRefresh env addr w).1.previousFunctionAddr = w.previousFunctionAddr ∧
    (doRefresh env addr w).1.decompiledFunctionAddr = w.decompiledFunctionAddr ∧
    (env.attemptRefresh = true → 0 ≤ w.decompilerComboBoxIndex →
      (doRefresh env addr w).1 = { w with decompilerWasBusy := true }) ∧
    (env.attemptRefresh = false ∨ w.decompilerComboBoxIndex < 0 →
      (doRefresh env addr w).1 = w) ∧
    (∀ (events : List (Env × Event)) (w0 : State),
      ∀ c ∈ decompileAtCalls (run events w0).2, c.2 = false) := by
  have hbody : doRefreshBody env addr w =
      if env.attemptRefresh = false ∨ w.decompilerComboBoxIndex < 0 then (w, [])
      else ({ w with decompilerWasBusy := true }, []) := by
    unfold doRefreshBody
    by_cases hg : env.attemptRefresh = false
    · simp [hg]
    · by_cases hi : w.decompilerComboBoxIndex < 0
      · simp [hi]
      · simp [hg, hi, hdec, hrun]
  unfold doRefresh
  rw [hbody]
  by_cases hc : env.attemptRefresh = false ∨ w.decompilerComboBoxIndex < 0
  · rw [if_pos hc]
    refine ⟨by simp [decompileAtCalls], rfl, rfl, rfl, ?_, fun _ => rfl, run_decompileAt⟩
    intro hg hi
    rcases hc with hc | hc
    · rw [hc] at hg; cases hg
    · omega
  · rw [if_neg hc]
    exact ⟨by simp [decompileAtCalls], rfl, rfl, rfl, fun _ _ => rfl,
      fun h => absurd h hc, run_decompileAt⟩

/-- Witness of C6: a refresh for `0x1000` while the backend of the example session runs. -/
theorem doRefresh_while_running_witness :
    decompileAtCalls (doRefresh (sessionEnv true) 0x1000 (shownState true)).2 = [] ∧
    (doRefresh (sessionEnv true) 0x1000 (shownState true)).2 = [Call.doRefresh 0x1000] :=
  ⟨(doRefresh_while_running (sessionEnv true) 0x1000 (shownState true) ⟨true, false⟩
      rfl rfl).1,
    (doRefresh_while_running (sessionEnv true) 0x1000 (shownState true) ⟨true, false⟩
      rfl rfl).2.1⟩

/-- C7, refuted as stated: with the pending flag set, (1) when auto-refresh is off the
completion of a run with a non-empty document enters `doRefresh` not once but never;
(2) when the document is empty the handler enters `doRefresh` never and leaves the pending
flag set. -/
theorem decompilationFinished_drains_counterexample :
    ((shownState false).decompilerWasBusy = true ∧
      firstLineCode.code.isEmpty = false ∧
      refreshRequests
        (decompilationFinished (sessionEnv false) firstLineCode (shownState false)).2 = []) ∧
    ((shownState true).decompilerWasBusy = true ∧
      refreshRequests
        (decompilationFinished (sessionEnv false) ⟨"", []⟩ (shownState true)).2 = [] ∧
      (decompilationFinished (sessionEnv false) ⟨"", []⟩ (shownState true)).1.decompilerWasBusy
        = true) := by
  decide

/-- C7, amended: in every state with the pending flag set, when `decompilationFinished`
handles a completion whose document has a non-empty text, it clears the pending flag and
calls `doAutoRefresh` once: it enters `doRefresh` exactly once, for the current navigation
offset, when auto-refresh is enabled, and never when it is disabled; the flag is set after
the handler only when that follow-up `doRefresh` found the selected backend running. -/
theorem decompilationFinished_drains (env : Env) (codeDecompiled : RAnnotatedCode) (w : State)
    (hbusy : w.decompilerWasBusy = true) (htext : codeDecompiled.code.isEmpty = false) :
    refreshRequests (decompilationFinished env codeDecompiled w).2
      = (if w.autoRefreshEnabled = true then [env.getOffset] else []) ∧
    ((decompilationFinished env codeDecompiled w).1.decompilerWasBusy = true ↔
      (w.autoRefreshEnabled = true ∧ env.attemptRefresh = true ∧
        0 ≤ w.decompilerComboBoxIndex ∧
        ∃ d, env.currentDecompiler = some d ∧ d.isRunning = true)) := by
  obtain ⟨h1, _, _, _, _, h6⟩ := decompilationFinishedDrained_facts env codeDecompiled w
  rw [decompilationFinished_text env codeDecompiled w htext]
  simp only [hbusy, true_and] at h1 h6
  split
  · refine ⟨?_, h6⟩
    rw [refreshRequests_append, h1]
    simp [refreshRequests]
  · exact ⟨h1, h6⟩

/-- Witness of C7 (amended): the example session with auto-refresh enabled. -/
theorem decompilationFinished_drains_witness :
    refreshRequests
      (decompilationFinished (sessionEnv false) firstLineCode (shownState true)).2 = [0x1000] :=
  (decompilationFinished_drains (sessionEnv false) firstLineCode (shownState true)
    (by decide) (by decide)).1

/-- C8, refuted as stated: the completion of a run for the function shown before
(`previousFunctionAddr = decompiledFunctionAddr`) with an empty document: the scroll
positions `(5, 7)` on entry are `(0, 0)` after the handler. -/
theorem decompilationFinished_viewport_counterexample :
    (shownState true).previousFunctionAddr = (shownState true).decompiledFunctionAddr ∧
    (shownState true).horizontalSliderPosition = 5 ∧
    (shownState true).verticalSliderPosition = 7 ∧
    (decompilationFinished (sessionEnv false) ⟨"", []⟩ (shownState true)).1.horizontalSliderPosition
      = 0 ∧
    (decompilationFinished (sessionEnv false) ⟨"", []⟩ (shownState true)).1.verticalSliderPosition
      = 0 := by
  decide

/-- C8, amended: a `doRefresh` that calls `decompileAt` sets `previousFunctionAddr` to the
old `decompiledFunctionAddr` and `decompiledFunctionAddr` to the function start of the
address; then, for every completion whose document has a non-empty text, if
`previousFunctionAddr = decompiledFunctionAddr` the handler writes the scroll positions of
its entry back, so both scroll positions after it equal those on entry; and for every
completion, if the two addresses differ the handler writes to no scroll bar and leaves the
saved positions alone. -/
theorem decompilationFinished_viewport (env : Env) (codeDecompiled : RAnnotatedCode)
    (w : State) :
    (∀ addr, decompileAtCalls (doRefresh env addr w).2 ≠ [] →
      (doRefresh env addr w).1.previousFunctionAddr = w.decompiledFunctionAddr ∧
      (doRefresh env addr w).1.decompiledFunctionAddr = env.getFunctionStart addr) ∧
    (w.previousFunctionAddr = w.decompiledFunctionAddr →
      codeDecompiled.code.isEmpty = false →
      (decompilationFinished env codeDecompiled w).1.horizontalSliderPosition
        = w.horizontalSliderPosition ∧
      (decompilationFinished env codeDecompiled w).1.verticalSliderPosition
        = w.verticalSliderPosition ∧
      sliderWrites (decompilationFinished env codeDecompiled w).2
        = [(false, w.horizontalSliderPosition), (true, w.verticalSliderPosition)]) ∧
    (w.previousFunctionAddr ≠ w.decompiledFunctionAddr →
      sliderWrites (decompilationFinished env codeDecompiled w).2 = [] ∧
      (decompilationFinished env codeDecompiled w).1.scrollerHorizontal
        = w.scrollerHorizontal ∧
      (decompilationFinished env codeDecompiled w).1.scrollerVertical
        = w.scrollerVertical) := by
  obtain ⟨_, _, _, ms, md⟩ := decompilationFinishedShown_members env codeDecompiled w
  obtain ⟨_, f2, _, f4, f5, _⟩ := decompilationFinishedDrained_facts env codeDecompiled w
  refine ⟨?_, ?_, ?_⟩
  · intro addr hcall
    unfold doRefresh at hcall ⊢
    simp only [decompileAtCalls] at hcall
    rcases doRefreshBody_outcome env addr w with ⟨_, h⟩ | ⟨d, _, _, _, _, h⟩ |
      ⟨d, _, _, _, _, _, h⟩ | ⟨d, _, _, _, _, _, _, h1, h2, _⟩
    · rw [h] at hcall; simp [decompileAtCalls] at hcall
    · rw [h] at hcall; simp [decompileAtCalls] at hcall
    · rw [h] at hcall; simp [decompileAtCalls] at hcall
    · exact ⟨h1, h2⟩
  · intro hsame htext
    obtain ⟨s1, s2⟩ := ms hsame
    rw [decompilationFinished_text env codeDecompiled w htext, if_pos hsame]
    simp only [sliderWrites_append, f2, sliderWrites, f4, f5, s1, s2, List.nil_append]
    exact ⟨trivial, trivial, trivial⟩
  · intro hdiff
    obtain ⟨s1, s2⟩ := md hdiff
    cases htext : codeDecompiled.code.isEmpty with
    | true =>
      rw [decompilationFinished_empty env codeDecompiled w htext]
      refine ⟨by simp [sliderWrites], ?_, ?_⟩
      · simp [setPlainText, decompilationFinishedReset, hdiff, updateRefreshButton]
      · simp [setPlainText, decompilationFinishedReset, hdiff, updateRefreshButton]
    | false =>
      rw [decompilationFinished_text env codeDecompiled w htext, if_neg hdiff]
      exact ⟨f2, by rw [f4, s1], by rw [f5, s2]⟩

/-! ## Highlighting -/

theorem narrowToInt_of_le (n : Nat) (h : n ≤ INT_MAX) : narrowToInt n = (n : Int) := by
  unfold narrowToInt
  unfold INT_MAX at h ⊢
  split <;> omega

theorem getCursorForAddress_some (annotations : List RCodeAnnotation) (addr : Nat) (p : Int)
    (h : getCursorForAddress annotations addr = some p) :
    p = narrowToInt (positionForOffset annotations addr) ∧
      positionForOffset annotations addr ≠ SIZE_MAX ∧ positionForOffset annotations addr ≠ 0 := by
  unfold getCursorForAddress at h
  by_cases hc : positionForOffset annotations addr = SIZE_MAX
      ∨ positionForOffset annotations addr = 0
  · rw [if_pos hc] at h; cases h
  · rw [if_neg hc] at h
    cases h
    push_neg at hc
    exact ⟨rfl, hc.1, hc.2⟩

theorem getCursorForAddress_zero (annotations : List RCodeAnnotation) (addr : Nat)
    (h : positionForOffset annotations addr = 0) : getCursorForAddress annotations addr = none := by
  unfold getCursorForAddress
  rw [if_pos (Or.inr h)]

theorem highlightBreakpointsStep_zero (w : State) (bp : Nat)
    (h : positionForOffset w.code.annotations bp = 0) : highlightBreakpointsStep w bp = w := by
  unfold highlightBreakpointsStep
  split
  · rfl
  · rw [getCursorForAddress_zero _ _ h]

theorem highlightBreakpoints_fold_zero (l : List Nat) :
    ∀ w : State, (∀ bp ∈ l, positionForOffset w.code.annotations bp = 0) →
      l.foldl highlightBreakpointsStep w = w := by
  induction l with
  | nil => intro w _; rfl
  | cons bp l ih =>
    intro w h
    rw [List.foldl_cons, highlightBreakpointsStep_zero w bp (h bp (by simp))]
    exact ih w (fun b hb => h b (by simp [hb]))

theorem highlightBreakpoints_fold_blocks (l : List Nat) :
    ∀ w : State, ∀ p ∈ (l.foldl highlightBreakpointsStep w).breakpointBlocks,
      p ∈ w.breakpointBlocks ∨
        (∃ bp ∈ l, bp ≠ RVA_INVALID ∧ positionForOffset w.code.annotations bp ≠ 0 ∧
          positionForOffset w.code.annotations bp ≠ SIZE_MAX ∧
          p = narrowToInt (positionForOffset w.code.annotations bp)) := by
  induction l with
  | nil => intro w p hp; exact Or.inl hp
  | cons bp l ih =>
    intro w p hp
    rw [List.foldl_cons] at hp
    have hcode : (highlightBreakpointsStep w bp).code = w.code :=
      (highlightBreakpointsStep_same w bp).2.2.2.2.2.2.2
    rcases ih _ p hp with h | ⟨b, hb, hbv, h0, h1, hpos⟩
    · unfold highlightBreakpointsStep at h
      by_cases hinv : bp = RVA_INVALID
      · rw [if_pos hinv] at h; exact Or.inl h
      · rw [if_neg hinv] at h
        cases hcur : getCursorForAddress w.code.annotations bp with
        | none => rw [hcur] at h; exact Or.inl h
        | some pos =>
          rw [hcur] at h
          simp only [List.mem_append, List.mem_singleton] at h
          rcases h with h | h
          · exact Or.inl h
          · obtain ⟨e1, e2, e3⟩ := getCursorForAddress_some _ _ _ hcur
            subst h
            exact Or.inr ⟨bp, by simp, hinv, e3, e2, e1⟩
    · rw [hcode] at h0 h1 hpos
      exact Or.inr ⟨b, by simp [hb], hbv, h0, h1, hpos⟩

/-- C10, refuted as stated: (1) for an annotation that starts at `2 ^ 32 + 5`,
`positionForOffset` is `4294967301`, neither `SIZE_MAX` nor 0, and the cursor returned is
not at that position but at 5; (2) for an annotation that starts at `2 ^ 32`,
`positionForOffset` is `4294967296` and the cursor returned is at 0. -/
theorem getCursorForAddress_narrowing_counterexample :
    (positionForOffset farStart 0x1000 = 4294967301 ∧
      ¬ (positionForOffset farStart 0x1000 = SIZE_MAX ∨ positionForOffset farStart 0x1000 = 0) ∧
      getCursorForAddress farStart 0x1000 = some 5 ∧
      ¬ getCursorForAddress farStart 0x1000
        = some ((positionForOffset farStart 0x1000 : Nat) : Int)) ∧
    (positionForOffset wrappedStart 0x1000 = 4294967296 ∧
      getCursorForAddress wrappedStart 0x1000 = some 0 ∧
      ¬ getCursorForAddress wrappedStart 0x1000
        = some ((positionForOffset wrappedStart 0x1000 : Nat) : Int)) := by
  decide

/-- C10, amended: `getCursorForAddress` returns the null cursor exactly when
`positionForOffset` is `SIZE_MAX` or 0 and otherwise the cursor given `positionForOffset`
converted to `int`, which is a cursor at `positionForOffset` whenever that position is at
most `INT_MAX`; so `highlightPC` draws nothing for a program counter whose position is 0,
`highlightBreakpoints` formats no block for a breakpoint whose position is 0 (every block
it formats comes from a breakpoint whose position is neither 0 nor `SIZE_MAX`), and in the
example session the program counter and the breakpoint at `0x1000`, inside the function
shown and at the valid position 0, get no highlight. -/
theorem getCursorForAddress_null (annotations : List RCodeAnnotation) (addr : Nat) (env : Env)
    (w : State) :
    (getCursorForAddress annotations addr = none ↔
      (positionForOffset annotations addr = SIZE_MAX ∨ positionForOffset annotations addr = 0)) ∧
    (¬ (positionForOffset annotations addr = SIZE_MAX ∨ positionForOffset annotations addr = 0) →
      getCursorForAddress annotations addr
        = some (narrowToInt (positionForOffset annotations addr))) ∧
    (¬ (positionForOffset annotations addr = SIZE_MAX ∨ positionForOffset annotations addr = 0) →
      positionForOffset annotations addr ≤ INT_MAX →
      getCursorForAddress annotations addr
        = some ((positionForOffset annotations addr : Nat) : Int)) ∧
    (positionForOffset w.code.annotations env.getProgramCounterValue = 0 →
      highlightPC env w = w) ∧
    ((∀ bp ∈ env.getBreakpointsInFunction w.decompiledFunctionAddr,
        positionForOffset w.code.annotations bp = 0) → highlightBreakpoints env w = w) ∧
    (∀ p ∈ (highlightBreakpoints env w).breakpointBlocks,
      p ∈ w.breakpointBlocks ∨
        (∃ bp ∈ env.getBreakpointsInFunction w.decompiledFunctionAddr,
          bp ≠ RVA_INVALID ∧ positionForOffset w.code.annotations bp ≠ 0 ∧
          positionForOffset w.code.annotations bp ≠ SIZE_MAX ∧
          p = narrowToInt (positionForOffset w.code.annotations bp))) ∧
    ((sessionEnv false).getProgramCounterValue ≠ RVA_INVALID ∧
      (sessionEnv false).getFunctionStart (sessionEnv false).getProgramCounterValue
        = firstLineState.decompiledFunctionAddr ∧
      (sessionEnv false).getBreakpointsInFunction firstLineState.decompiledFunctionAddr
        = [0x1000] ∧
      positionForOffset firstLineState.code.annotations 0x1000 = 0 ∧
      (0 : Nat) ≠ SIZE_MAX ∧
      highlightPC (sessionEnv false) firstLineState = firstLineState ∧
      highlightBreakpoints (sessionEnv false) firstLineState = firstLineState) := by
  refine ⟨?_, ?_, ?_, ?_, ?_, ?_, by decide⟩
  · unfold getCursorForAddress
    by_cases hc : positionForOffset annotations addr = SIZE_MAX
        ∨ positionForOffset annotations addr = 0
    · simp only [if_pos hc, true_iff]; exact hc
    · simp only [if_neg hc, false_iff]
      constructor
      · intro h; cases h
      · intro h; exact absurd h hc
  · intro hc
    unfold getCursorForAddress
    rw [if_neg hc]
  · intro hc hle
    unfold getCursorForAddress
    rw [if_neg hc, narrowToInt_of_le _ hle]
  · intro h
    unfold highlightPC
    split
    · rfl
    · rw [getCursorForAddress_zero _ _ h]
  · intro h
    exact highlightBreakpoints_fold_zero _ w h
  · exact highlightBreakpoints_fold_blocks _ w

end DecompilerWidget
